import Mathlib

/-!
# Bonsai-tracker: a shallow embedding of the data layer

This file embeds the data model (`src/models.py`) and the data operations of
`src/app.py` of the bonsai-tracker repository in Lean, and proves the
spec claims about them.

Modelling conventions:
* `datetime` values are integers counting seconds; `timedelta.days` is floor
  division by 86400 (Python `//` semantics), which is all the code uses.
* Python `float` arithmetic on ages and girths is modelled with `ℚ`; only
  equalities and sign facts are stated, which agree with float evaluation.
* SQLAlchemy tables are lists of rows in insertion (primary-key) order; the
  autoincrement id supply is a single `nextId` counter (only freshness and
  distinctness of ids matter to any claim).
* Columns that no exported/imported datum and no claim touches
  (`Photo.upload_date`, `Reminder.notification_sent`, `Reminder.created_date`,
  `Species.created_at`) are omitted from the row structures.
-/

/-! ## Decimal numerals

Python's `f"{n:03d}"` / `strftime("%Y%m%d")` / `strptime(s, "%Y%m%d")` are
modelled with an executable decimal renderer and parser.  `strftime`/`strptime`
are modelled at the level of the day index (zero padded to eight characters)
rather than the calendar split into year/month/day; the properties the code
relies on — the rendering is injective and the parser inverts it on the range
`datetime` supports — are identical.
-/

/-- The character for a single decimal digit (`d < 10`). -/
def digitChar (d : Nat) : Char := Char.ofNat (48 + d)

/-- The numeric value of a decimal digit character. -/
def charDigit (c : Char) : Nat := c.toNat - 48

/-- Little-endian digit list of `n`, driven by a fuel argument so that the
definition is structural (hence reduces definitionally); `fuel ≥ n` is enough
fuel. -/
def natDigitsRevFuel : Nat → Nat → List Char
  | _, 0 => []
  | 0, _ + 1 => []
  | fuel + 1, n + 1 => digitChar ((n + 1) % 10) :: natDigitsRevFuel fuel ((n + 1) / 10)

/-- Decimal numeral of `n`, most significant digit first. -/
def natRepr (n : Nat) : List Char :=
  if n = 0 then ['0'] else (natDigitsRevFuel n n).reverse

/-- Zero-pad a numeral on the left to width `w` (Python `f"{n:0{w}d}"`). -/
def padZero (w : Nat) (s : List Char) : List Char :=
  List.replicate (w - s.length) '0' ++ s

/-- Value of a digit list, least significant digit first. -/
def parseRev : List Char → Nat
  | [] => 0
  | c :: cs => charDigit c + 10 * parseRev cs

/-- Value of a digit list, most significant digit first. -/
def parseDec (s : List Char) : Nat := parseRev s.reverse

/-! ## Time

`datetime` values are integer seconds; a day is 86400 seconds. -/

/-- Seconds per day. -/
def secPerDay : Int := 86400

/-- Python `timedelta.days`: floor division of the total length by one day. -/
def timedeltaDays (delta : Int) : Int := delta.fdiv secPerDay

/-- The day index a `datetime` falls on. -/
def dayNum (t : Int) : Int := t.fdiv secPerDay

/-- Midnight of the day a `datetime` falls on (what
`strptime(t.strftime("%Y%m%d"), "%Y%m%d")` reconstructs). -/
def midnight (t : Int) : Int := dayNum t * secPerDay

/-- `strftime("%Y%m%d")`: the eight-character zero-padded rendering of the
day index (negative days, which `datetime` cannot produce, get a sign). -/
def dayStr (t : Int) : List Char :=
  if dayNum t < 0 then '-' :: padZero 7 (natRepr (-(dayNum t)).toNat)
  else padZero 8 (natRepr (dayNum t).toNat)

/-- `datetime.strptime(s[:8], "%Y%m%d")`: take the first eight characters,
require them all decimal digits, and return midnight of the parsed day.
Returns `none` where Python raises `ValueError`. -/
def parseYMD (s : List Char) : Option Int :=
  let cs := s.take 8
  if cs.length = 8 ∧ cs.all Char.isDigit then some ((parseDec cs : Int) * secPerDay)
  else none

/-! ## Row structures (`src/models.py`) -/

/-- `Species` row (`models.py`). -/
structure SpeciesRow where
  id : Nat
  name : String
deriving DecidableEq, Repr

/-- `Tree` row (`models.py`).  `is_archived` is the 0/1 integer column. -/
structure TreeRow where
  id : Nat
  tree_number : String
  tree_name : String
  species_id : Nat
  date_acquired : Int
  origin_date : Int
  current_girth : Option ℚ
  notes : Option String
  is_archived : Int
deriving DecidableEq, Repr

/-- `TreeUpdate` row (`models.py`). -/
structure TreeUpdateRow where
  id : Nat
  tree_id : Nat
  update_date : Int
  girth : Option ℚ
  work_performed : String
deriving DecidableEq, Repr

/-- `Photo` row (`models.py`).  `is_starred` is the 0/1 integer column. -/
structure PhotoRow where
  id : Nat
  tree_id : Nat
  file_path : String
  photo_date : Int
  description : Option String
  is_starred : Int
deriving DecidableEq, Repr

/-- `Reminder` row (`models.py`). -/
structure ReminderRow where
  id : Nat
  tree_id : Nat
  reminder_date : Int
  message : String
  is_completed : Int
deriving DecidableEq, Repr

/-- The database: one list of rows per table plus the fresh-id supply. -/
structure Db where
  species : List SpeciesRow
  trees : List TreeRow
  tree_updates : List TreeUpdateRow
  photos : List PhotoRow
  reminders : List ReminderRow
  nextId : Nat
deriving DecidableEq, Repr

/-- The empty database. -/
def emptyDb : Db := ⟨[], [], [], [], [], 1⟩

/-! ## Derived ages (`models.py`, `Tree.training_age` / `Tree.true_age`) -/

/-- `Tree.training_age`: `(datetime.now() - self.date_acquired).days / 365.25`. -/
def training_age (t : TreeRow) (now : Int) : ℚ :=
  (timedeltaDays (now - t.date_acquired) : ℚ) / (365.25 : ℚ)

/-- `Tree.true_age`: `(datetime.now() - self.origin_date).days / 365.25`. -/
def true_age (t : TreeRow) (now : Int) : ℚ :=
  (timedeltaDays (now - t.origin_date) : ℚ) / (365.25 : ℚ)

/-! ## Tree-number generation (`app.py`, `generate_tree_number`) -/

/-- The formatted number for a given tree count: `f"BON-{tree_count + 1:03d}"`. -/
def tree_number_format (tree_count : Nat) : String :=
  "BON-" ++ String.mk (padZero 3 (natRepr (tree_count + 1)))

/-- `generate_tree_number(db)`: format the current row count of the `trees`
table (`db.query(Tree).count()`) plus one. -/
def generate_tree_number (db : Db) : String :=
  tree_number_format db.trees.length

/-! ## Numeral lemmas -/

theorem charDigit_digitChar : ∀ d : Nat, d < 10 → charDigit (digitChar d) = d := by decide

theorem isDigit_digitChar : ∀ d : Nat, d < 10 → (digitChar d).isDigit = true := by decide

theorem parseRev_natDigitsRevFuel :
    ∀ (fuel n : Nat), n ≤ fuel → parseRev (natDigitsRevFuel fuel n) = n := by
  intro fuel
  induction fuel with
  | zero =>
    intro n hn
    interval_cases n
    rfl
  | succ f ih =>
    intro n hn
    match n with
    | 0 => rfl
    | m + 1 =>
      have hdiv : (m + 1) / 10 ≤ f := by omega
      simp only [natDigitsRevFuel, parseRev]
      rw [charDigit_digitChar _ (Nat.mod_lt _ (by omega)), ih _ hdiv]
      omega

theorem mem_natDigitsRevFuel_isDigit :
    ∀ (fuel n : Nat), ∀ c ∈ natDigitsRevFuel fuel n, c.isDigit = true := by
  intro fuel
  induction fuel with
  | zero =>
    intro n c hc
    match n with
    | 0 => simp [natDigitsRevFuel] at hc
    | _ + 1 => simp [natDigitsRevFuel] at hc
  | succ f ih =>
    intro n c hc
    match n with
    | 0 => simp [natDigitsRevFuel] at hc
    | m + 1 =>
      simp only [natDigitsRevFuel, List.mem_cons] at hc
      rcases hc with rfl | hc
      · exact isDigit_digitChar _ (Nat.mod_lt _ (by omega))
      · exact ih _ _ hc

theorem length_natDigitsRevFuel :
    ∀ (fuel n k : Nat), n ≤ fuel → n < 10 ^ k → (natDigitsRevFuel fuel n).length ≤ k := by
  intro fuel
  induction fuel with
  | zero =>
    intro n k hn _
    interval_cases n
    simp [natDigitsRevFuel]
  | succ f ih =>
    intro n k hn hk
    match n with
    | 0 => simp [natDigitsRevFuel]
    | m + 1 =>
      have hkpos : 0 < k := by
        rcases Nat.eq_zero_or_pos k with rfl | h
        · simp at hk
        · exact h
      have hdivf : (m + 1) / 10 ≤ f := by omega
      have hdivk : (m + 1) / 10 < 10 ^ (k - 1) := by
        rw [Nat.div_lt_iff_lt_mul (by omega)]
        calc m + 1 < 10 ^ k := hk
        _ = 10 ^ (k - 1) * 10 := by
            rw [← pow_succ]
            congr 1
            omega
      have := ih ((m + 1) / 10) (k - 1) hdivf hdivk
      simp only [natDigitsRevFuel, List.length_cons]
      omega

theorem parseDec_natRepr (n : Nat) : parseDec (natRepr n) = n := by
  by_cases h : n = 0
  · subst h; rfl
  · simp only [natRepr, if_neg h, parseDec, List.reverse_reverse]
    exact parseRev_natDigitsRevFuel n n le_rfl

theorem mem_natRepr_isDigit (n : Nat) : ∀ c ∈ natRepr n, c.isDigit = true := by
  by_cases h : n = 0
  · subst h; decide
  · simp only [natRepr, if_neg h]
    intro c hc
    exact mem_natDigitsRevFuel_isDigit n n c (List.mem_reverse.mp hc)

theorem length_natRepr_le (n k : Nat) (hk : 0 < k) (h : n < 10 ^ k) :
    (natRepr n).length ≤ k := by
  by_cases h0 : n = 0
  · subst h0; simpa [natRepr] using hk
  · simp only [natRepr, if_neg h0, List.length_reverse]
    exact length_natDigitsRevFuel n n k le_rfl h

theorem parseRev_append (a b : List Char) :
    parseRev (a ++ b) = parseRev a + 10 ^ a.length * parseRev b := by
  induction a with
  | nil => simp [parseRev]
  | cons c cs ih =>
    simp only [List.cons_append, parseRev, List.length_cons, List.append_eq]
    rw [ih]
    ring

theorem parseRev_replicate_zero (k : Nat) : parseRev (List.replicate k '0') = 0 := by
  induction k with
  | zero => rfl
  | succ m ih => simp [List.replicate_succ, parseRev, ih]; rfl

theorem parseDec_padZero (w : Nat) (s : List Char) : parseDec (padZero w s) = parseDec s := by
  simp only [padZero, parseDec, List.reverse_append, List.reverse_replicate, parseRev_append,
    parseRev_replicate_zero, mul_zero, add_zero]

theorem length_padZero (w : Nat) (s : List Char) : (padZero w s).length = max w s.length := by
  simp only [padZero, List.length_append, List.length_replicate]
  omega

theorem mem_padZero_isDigit (w : Nat) (s : List Char) (hs : ∀ c ∈ s, c.isDigit = true) :
    ∀ c ∈ padZero w s, c.isDigit = true := by
  intro c hc
  rcases List.mem_append.mp hc with h | h
  · rw [List.eq_of_mem_replicate h]; decide
  · exact hs c h

theorem tree_number_format_data (c : Nat) :
    (tree_number_format c).data = 'B' :: 'O' :: 'N' :: '-' :: padZero 3 (natRepr (c + 1)) := by
  simp [tree_number_format, String.data_append]

theorem tree_number_format_injective : Function.Injective tree_number_format := by
  intro c1 c2 h
  have hd : (tree_number_format c1).data = (tree_number_format c2).data := by rw [h]
  rw [tree_number_format_data, tree_number_format_data] at hd
  have hpad : padZero 3 (natRepr (c1 + 1)) = padZero 3 (natRepr (c2 + 1)) := by
    simpa using hd
  have := congrArg parseDec hpad
  rw [parseDec_padZero, parseDec_padZero, parseDec_natRepr, parseDec_natRepr] at this
  omega

/-- C6: for every current tree count `c`, the generated number is "BON-"
followed by `c + 1` zero-padded to three digits (the suffix after "BON-" is an
all-digit numeral of width `max 3 (numeral length)` whose decimal value is
`c + 1`), and the numbers generated for distinct counts — in particular for `N`
sequential deletion-free creations, which see counts `0, 1, ..., N-1` — are
pairwise distinct. -/
theorem generate_tree_number_spec :
    (∀ db : Db, generate_tree_number db = tree_number_format db.trees.length) ∧
    (∀ c : Nat,
      (tree_number_format c).data.take 4 = ['B', 'O', 'N', '-'] ∧
      (∀ ch ∈ (tree_number_format c).data.drop 4, ch.isDigit = true) ∧
      ((tree_number_format c).data.drop 4).length = max 3 (natRepr (c + 1)).length ∧
      parseDec ((tree_number_format c).data.drop 4) = c + 1) ∧
    (∀ N : Nat, ((List.range N).map tree_number_format).Nodup) := by
  refine ⟨fun _ => rfl, fun c => ?_, fun N => ?_⟩
  · rw [tree_number_format_data]
    refine ⟨rfl, ?_, ?_, ?_⟩
    · intro ch hch
      exact mem_padZero_isDigit 3 _ (mem_natRepr_isDigit (c + 1)) ch hch
    · simp only [List.drop_succ_cons, List.drop_zero]
      exact length_padZero 3 _
    · simp only [List.drop_succ_cons, List.drop_zero]
      rw [parseDec_padZero, parseDec_natRepr]
  · exact (List.nodup_range N).map tree_number_format_injective

/-- C8: `training_age` is the day count between `now` and `date_acquired`
divided by 365.25, and is non-negative whenever `date_acquired ≤ now`;
likewise `true_age` with `origin_date`. -/
theorem training_true_age_spec :
    ∀ (t : TreeRow) (now : Int),
      training_age t now = (timedeltaDays (now - t.date_acquired) : ℚ) / (365.25 : ℚ) ∧
      true_age t now = (timedeltaDays (now - t.origin_date) : ℚ) / (365.25 : ℚ) ∧
      (t.date_acquired ≤ now → 0 ≤ training_age t now) ∧
      (t.origin_date ≤ now → 0 ≤ true_age t now) := by
  intro t now
  refine ⟨rfl, rfl, fun h => ?_, fun h => ?_⟩
  · apply div_nonneg _ (by norm_num)
    have : (0 : Int) ≤ timedeltaDays (now - t.date_acquired) :=
      Int.fdiv_nonneg (by omega) (by norm_num [secPerDay])
    exact_mod_cast this
  · apply div_nonneg _ (by norm_num)
    have : (0 : Int) ≤ timedeltaDays (now - t.origin_date) :=
      Int.fdiv_nonneg (by omega) (by norm_num [secPerDay])
    exact_mod_cast this

/-- Witness for C8 at a concrete tree and query time. -/
theorem training_true_age_spec_witness :
    (0 : ℚ) ≤ training_age ⟨1, "BON-001", "Alice", 1, 86400, 0, none, none, 0⟩ (3 * 86400) ∧
    (0 : ℚ) ≤ true_age ⟨1, "BON-001", "Alice", 1, 86400, 0, none, none, 0⟩ (3 * 86400) :=
  ⟨(training_true_age_spec ⟨1, "BON-001", "Alice", 1, 86400, 0, none, none, 0⟩
      (3 * 86400)).2.2.1 (by norm_num),
   (training_true_age_spec ⟨1, "BON-001", "Alice", 1, 86400, 0, none, none, 0⟩
      (3 * 86400)).2.2.2 (by norm_num)⟩

/-! ## Species get-or-create (`app.py`, `get_or_create_species`; the same
filter-by-name-else-insert logic is inlined in `import_bonsai_data`). -/

/-- `get_or_create_species(db, species_name)`. -/
def get_or_create_species (db : Db) (species_name : String) : Db × SpeciesRow :=
  match db.species.find? (fun s => s.name == species_name) with
  | some s => (db, s)
  | none =>
    let s : SpeciesRow := ⟨db.nextId, species_name⟩
    ({ db with species := db.species ++ [s], nextId := db.nextId + 1 }, s)

/-! ## Tree creation and permanent deletion -/

/-- The fields of the "Add Tree" form. -/
structure NewTreeForm where
  tree_name : String
  species : String
  girth : ℚ
  date_acquired : Int
  origin_date : Int
  notes : String
deriving DecidableEq, Repr

/-- The "Add Tree" submit handler (`app.py` lines 890-917): the number is
generated from the current row count, the species is got-or-created, and the
tree row is inserted (`is_archived` defaults to 0).  The optional initial
photo touches no table any tree-number claim mentions and is omitted. -/
def add_tree (db : Db) (f : NewTreeForm) : Db :=
  let number := generate_tree_number db
  let res := get_or_create_species db f.species
  let db1 := res.1
  let t : TreeRow :=
    ⟨db1.nextId, number, f.tree_name, res.2.id, f.date_acquired, f.origin_date,
      some f.girth, some f.notes, 0⟩
  { db1 with trees := db1.trees ++ [t], nextId := db1.nextId + 1 }

/-- A sequence of tree creations. -/
def add_trees (db : Db) (forms : List NewTreeForm) : Db :=
  forms.foldl add_tree db

/-- "Delete Forever" in the graveyard (`app.py` lines 988-995): the tree row
is deleted and the `all, delete-orphan` cascade configured in `models.py`
removes its updates, photos and reminders; the photo files also removed from
disk are not modelled. -/
def delete_tree_forever (db : Db) (tree_id : Nat) : Db :=
  { db with
    trees := db.trees.filter (fun t => t.id != tree_id),
    tree_updates := db.tree_updates.filter (fun u => u.tree_id != tree_id),
    photos := db.photos.filter (fun p => p.tree_id != tree_id),
    reminders := db.reminders.filter (fun r => r.tree_id != tree_id) }

theorem add_tree_trees_map (db : Db) (f : NewTreeForm) :
    (add_tree db f).trees.map TreeRow.tree_number =
      db.trees.map TreeRow.tree_number ++ [tree_number_format db.trees.length] ∧
    (add_tree db f).trees.length = db.trees.length + 1 := by
  unfold add_tree get_or_create_species generate_tree_number
  cases db.species.find? (fun s => s.name == f.species) <;> simp

theorem add_trees_tree_numbers :
    ∀ (forms : List NewTreeForm) (db : Db),
      (add_trees db forms).trees.map TreeRow.tree_number =
        db.trees.map TreeRow.tree_number ++
          (List.range' db.trees.length forms.length).map tree_number_format := by
  intro forms
  induction forms with
  | nil => intro db; simp [add_trees]
  | cons f rest ih =>
    intro db
    have step : add_trees db (f :: rest) = add_trees (add_tree db f) rest := rfl
    rw [step, ih, (add_tree_trees_map db f).1, (add_tree_trees_map db f).2]
    simp [List.range']

/-- Counterexample to C5 as stated: create two trees ("BON-001", "BON-002"),
permanently delete the second (row id 3), and create a third tree: it is
assigned "BON-002", a number already assigned earlier in the history. -/
theorem tree_number_reuse_counterexample :
    (add_trees emptyDb [⟨"Alice", "Pine", 0, 0, 0, ""⟩, ⟨"Bob", "Pine", 0, 0, 0, ""⟩]).trees.map
        TreeRow.tree_number = ["BON-001", "BON-002"] ∧
    (add_tree
        (delete_tree_forever
          (add_trees emptyDb [⟨"Alice", "Pine", 0, 0, 0, ""⟩, ⟨"Bob", "Pine", 0, 0, 0, ""⟩]) 3)
        ⟨"Carol", "Pine", 0, 0, 0, ""⟩).trees.map TreeRow.tree_number =
      ["BON-001", "BON-002"] := by decide

/-- C5 amended: in any deletion-free history, the numbers assigned by
successive creations are pairwise distinct (after a permanent deletion the
count-derived generator does reuse numbers, as the counterexample shows). -/
theorem tree_numbers_nodup_without_deletions :
    ∀ forms : List NewTreeForm,
      ((add_trees emptyDb forms).trees.map TreeRow.tree_number).Nodup := by
  intro forms
  rw [add_trees_tree_numbers]
  simp only [emptyDb, List.map_nil, List.nil_append, List.length_nil]
  exact (List.nodup_range' 0 forms.length 1 (by norm_num)).map tree_number_format_injective

/-! ## Photo star toggle (gallery, `app.py` lines 652-663) -/

/-- The bulk update in the star handler: `is_starred = 0` for every photo of
the tree other than the clicked one (`Photo.tree_id == tree_id`,
`Photo.id != photo.id`). -/
def clearOthers (tree_id : Nat) (pid : Nat) (q : PhotoRow) : PhotoRow :=
  if q.tree_id == tree_id && q.id != pid then { q with is_starred := 0 } else q

/-- The second step of the star handler: `photo.is_starred = 1 - photo.is_starred`
applied to the row with the clicked id. -/
def setToggled (pid : Nat) (v : Int) (q : PhotoRow) : PhotoRow :=
  if q.id == pid then { q with is_starred := v } else q

/-- The star button handler: if the clicked photo is unstarred
(`if not photo.is_starred`), first clear the star of every other photo of the
tree, then set the clicked photo's `is_starred` to `1 - is_starred`. -/
def toggle_star (photos : List PhotoRow) (tree_id : Nat) (photo : PhotoRow) : List PhotoRow :=
  let cleared :=
    if photo.is_starred = 0 then photos.map (clearOthers tree_id photo.id) else photos
  cleared.map (setToggled photo.id (1 - photo.is_starred))

/-- Number of starred photos a tree has. -/
def starredCount (photos : List PhotoRow) (tree_id : Nat) : Nat :=
  (photos.filter (fun q => q.tree_id == tree_id && q.is_starred != 0)).length

theorem clearOthers_id (t pid : Nat) (q : PhotoRow) : (clearOthers t pid q).id = q.id := by
  unfold clearOthers
  split <;> rfl

theorem clearOthers_tree_id (t pid : Nat) (q : PhotoRow) :
    (clearOthers t pid q).tree_id = q.tree_id := by
  unfold clearOthers
  split <;> rfl

theorem setToggled_id (pid : Nat) (v : Int) (q : PhotoRow) : (setToggled pid v q).id = q.id := by
  unfold setToggled
  split <;> rfl

theorem setToggled_tree_id (pid : Nat) (v : Int) (q : PhotoRow) :
    (setToggled pid v q).tree_id = q.tree_id := by
  unfold setToggled
  split <;> rfl

theorem setToggled_of_ne (pid : Nat) (v : Int) (q : PhotoRow) (h : q.id ≠ pid) :
    setToggled pid v q = q := by
  simp [setToggled, h]

theorem clearOthers_starred_of_other (t pid : Nat) (q : PhotoRow)
    (h1 : q.tree_id = t) (h2 : q.id ≠ pid) : (clearOthers t pid q).is_starred = 0 := by
  simp [clearOthers, h1, h2]

theorem length_filter_map_le {α β : Type} (l : List α) (g : α → β) (p : β → Bool)
    (q : α → Bool) (h : ∀ x ∈ l, p (g x) = true → q x = true) :
    ((l.map g).filter p).length ≤ (l.filter q).length := by
  induction l with
  | nil => simp
  | cons x xs ih =>
    have ih' := ih fun y hy hpy => h y (List.mem_cons_of_mem _ hy) hpy
    simp only [List.map_cons, List.filter_cons]
    by_cases hp : p (g x) = true
    · have hq := h x (List.mem_cons_self _ _) hp
      simp only [hp, hq, if_true, List.length_cons]
      omega
    · rw [if_neg hp]
      by_cases hq : q x = true
      · simp only [hq, if_true, List.length_cons]
        omega
      · rw [if_neg hq]
        exact ih'

theorem length_filter_le_one_of_key {α : Type} (l : List α) (key : α → Nat)
    (hnd : (l.map key).Nodup) (i : Nat) (p : α → Bool)
    (hp : ∀ x ∈ l, p x = true → key x = i) : (l.filter p).length ≤ 1 := by
  induction l with
  | nil => simp
  | cons x xs ih =>
    simp only [List.map_cons, List.nodup_cons] at hnd
    simp only [List.filter_cons]
    by_cases hpx : p x = true
    · have hxi : key x = i := hp x (List.mem_cons_self _ _) hpx
      have hnil : xs.filter p = [] := by
        rw [List.filter_eq_nil_iff]
        intro y hy hpy
        have hyi : key y = i := hp y (List.mem_cons_of_mem _ hy) (by simpa using hpy)
        exact hnd.1 (List.mem_map.mpr ⟨y, hy, by omega⟩)
      simp [hpx, hnil]
    · rw [if_neg hpx]
      exact ih hnd.2 fun y hy hpy => hp y (List.mem_cons_of_mem _ hy) hpy

/-- C7: the star toggle keeps the per-tree invariant that at most one photo of
the tree is starred, and when it stars an unstarred photo it first clears the
star of every other photo of that tree. -/
theorem star_invariant_spec :
    ∀ (photos : List PhotoRow) (tree_id : Nat) (photo : PhotoRow),
      (photos.map PhotoRow.id).Nodup → photo ∈ photos → photo.tree_id = tree_id →
      starredCount photos tree_id ≤ 1 →
      starredCount (toggle_star photos tree_id photo) tree_id ≤ 1 ∧
      (photo.is_starred = 0 →
        ∀ q ∈ toggle_star photos tree_id photo,
          q.tree_id = tree_id → q.id ≠ photo.id → q.is_starred = 0) := by
  intro photos tree_id photo hnd hmem htid hinv
  by_cases hstar : photo.is_starred = 0
  · -- star branch: all other photos of the tree are cleared, the clicked one set
    have hres : toggle_star photos tree_id photo =
        photos.map (fun q => setToggled photo.id (1 - photo.is_starred)
          (clearOthers tree_id photo.id q)) := by
      simp [toggle_star, if_pos hstar, List.map_map, Function.comp]
    have hgid : ∀ q : PhotoRow,
        (setToggled photo.id (1 - photo.is_starred) (clearOthers tree_id photo.id q)).id =
          q.id := by
      intro q
      rw [setToggled_id, clearOthers_id]
    have hgtree : ∀ q : PhotoRow,
        (setToggled photo.id (1 - photo.is_starred) (clearOthers tree_id photo.id q)).tree_id =
          q.tree_id := by
      intro q
      rw [setToggled_tree_id, clearOthers_tree_id]
    have hgstar : ∀ q : PhotoRow, q.tree_id = tree_id → q.id ≠ photo.id →
        (setToggled photo.id (1 - photo.is_starred) (clearOthers tree_id photo.id q)).is_starred =
          0 := by
      intro q h1 h2
      rw [setToggled_of_ne _ _ _ (by rw [clearOthers_id]; exact h2)]
      exact clearOthers_starred_of_other _ _ _ h1 h2
    rw [hres]
    constructor
    · apply length_filter_le_one_of_key _ PhotoRow.id _ photo.id
      · intro x hx hpx
        rcases List.mem_map.mp hx with ⟨y, hy, rfl⟩
        rw [hgid]
        by_contra hne
        have h1 : (setToggled photo.id (1 - photo.is_starred)
            (clearOthers tree_id photo.id y)).tree_id = tree_id ∧
            (setToggled photo.id (1 - photo.is_starred)
              (clearOthers tree_id photo.id y)).is_starred ≠ 0 := by
          simpa using hpx
        have h2 : y.tree_id = tree_id := by rw [← hgtree y]; exact h1.1
        exact h1.2 (hgstar y h2 hne)
      · rw [List.map_map]
        have heq : (PhotoRow.id ∘ fun q =>
            setToggled photo.id (1 - photo.is_starred) (clearOthers tree_id photo.id q)) =
            PhotoRow.id := by
          funext q
          exact hgid q
        rw [heq]
        exact hnd
    · intro _ q hq hqt hqid
      rcases List.mem_map.mp hq with ⟨y, hy, rfl⟩
      have h2 : y.tree_id = tree_id := by rw [← hgtree y]; exact hqt
      have hyne : y.id ≠ photo.id := by rw [← hgid y]; exact hqid
      exact hgstar y h2 hyne
  · -- unstar branch: only the clicked photo changes; its star can only go away
    have hres : toggle_star photos tree_id photo =
        photos.map (setToggled photo.id (1 - photo.is_starred)) := by
      simp [toggle_star, if_neg hstar]
    rw [hres]
    refine ⟨le_trans (length_filter_map_le photos _ _ _ ?_) hinv, fun h0 => absurd h0 hstar⟩
    intro x hx hpx
    by_cases hid : x.id = photo.id
    · have hxp : x = photo := List.inj_on_of_nodup_map hnd hx hmem hid
      subst hxp
      simp [htid, hstar]
    · rwa [setToggled_of_ne _ _ _ hid] at hpx

/-- Witness for C7: toggling the unstarred photo 2 of tree 5, while photo 1 is
starred, leaves at most one starred photo and clears photo 1. -/
theorem star_invariant_spec_witness :
    starredCount (toggle_star [⟨1, 5, "a.jpg", 0, none, 1⟩, ⟨2, 5, "b.jpg", 0, none, 0⟩] 5
      ⟨2, 5, "b.jpg", 0, none, 0⟩) 5 ≤ 1 ∧
    ((⟨2, 5, "b.jpg", 0, none, 0⟩ : PhotoRow).is_starred = 0 →
      ∀ q ∈ toggle_star [⟨1, 5, "a.jpg", 0, none, 1⟩, ⟨2, 5, "b.jpg", 0, none, 0⟩] 5
        ⟨2, 5, "b.jpg", 0, none, 0⟩, q.tree_id = 5 → q.id ≠ 2 → q.is_starred = 0) :=
  star_invariant_spec [⟨1, 5, "a.jpg", 0, none, 1⟩, ⟨2, 5, "b.jpg", 0, none, 0⟩] 5
    ⟨2, 5, "b.jpg", 0, none, 0⟩ (by decide) (by decide) rfl (by decide)

/-! ## Saving tree updates -/

/-- The photo-insertion loop inside "Save Update": one `Photo` row per
uploaded file, described by the work text, `is_starred` defaulting to 0.
Each upload is given as its saved path and its EXIF-or-now date. -/
def add_upload_photos (tree_id : Nat) (work : String) (db : Db)
    (uploads : List (String × Int)) : Db :=
  uploads.foldl (fun db pu =>
    { db with photos := db.photos ++ [⟨db.nextId, tree_id, pu.1, pu.2, some work, 0⟩],
              nextId := db.nextId + 1 }) db

/-- "Save Update" in the update form (`app.py` lines 764-804): insert the new
`TreeUpdate` row, overwrite the tree's `current_girth` with the entered girth,
insert a photo row per upload, and insert the optional reminder
(`is_completed` defaulting to 0). -/
def save_update (db : Db) (tree_id : Nat) (update_date : Int) (girth : ℚ)
    (work : String) (uploads : List (String × Int))
    (reminder : Option (Int × String)) : Db :=
  let u : TreeUpdateRow := ⟨db.nextId, tree_id, update_date, some girth, work⟩
  let db1 := { db with tree_updates := db.tree_updates ++ [u], nextId := db.nextId + 1 }
  let db2 := { db1 with trees := db1.trees.map (fun t =>
    if t.id == tree_id then { t with current_girth := some girth } else t) }
  let db3 := add_upload_photos tree_id work db2 uploads
  match reminder with
  | none => db3
  | some r =>
    { db3 with reminders := db3.reminders ++ [⟨db3.nextId, tree_id, r.1, r.2, 0⟩],
               nextId := db3.nextId + 1 }

/-- The work-history edit form's "Save Changes" (`app.py` lines 410-415): the
selected `TreeUpdate` row's date, girth and work text are overwritten; no
other row — in particular no tree row — is touched. -/
def save_update_edit (db : Db) (update_id : Nat) (edit_date : Int) (edit_girth : ℚ)
    (edit_work : String) : Db :=
  { db with tree_updates := db.tree_updates.map (fun u =>
      if u.id == update_id then
        { u with update_date := edit_date, girth := some edit_girth,
                 work_performed := edit_work }
      else u) }

/-- A concrete database: one tree with `current_girth = 5` and one update. -/
def exDbC9 : Db :=
  ⟨[⟨1, "Pine"⟩], [⟨2, "BON-001", "Alice", 1, 0, 0, some 5, none, 0⟩],
    [⟨10, 2, 0, some 5, "w"⟩], [], [], 11⟩

/-- Counterexample to C9 as stated: saving the work-history edit form with
girth 7 for the update of tree 2 stores girth 7 on the `TreeUpdate` row but
leaves the tree's `current_girth` at 5 — so not every update-save operation
overwrites `Tree.current_girth`. -/
theorem update_girth_side_effect_counterexample :
    (save_update_edit exDbC9 10 0 7 "x").tree_updates = [⟨10, 2, 0, some 7, "x"⟩] ∧
    (save_update_edit exDbC9 10 0 7 "x").trees =
      [⟨2, "BON-001", "Alice", 1, 0, 0, some 5, none, 0⟩] ∧
    (some (5 : ℚ) ≠ some (7 : ℚ)) := by decide

theorem add_upload_photos_trees :
    ∀ (uploads : List (String × Int)) (tree_id : Nat) (work : String) (db : Db),
      (add_upload_photos tree_id work db uploads).trees = db.trees := by
  intro uploads
  induction uploads with
  | nil => intro tree_id work db; rfl
  | cons u rest ih => intro tree_id work db; exact ih tree_id work _

/-- C9 amended: the update form's "Save Update" overwrites the target tree's
`current_girth` with the entered girth and leaves its other stored fields —
and all other trees — unchanged; the work-history edit save stores the girth
only on the `TreeUpdate` row and leaves every tree row unchanged. -/
theorem save_update_girth_spec :
    (∀ (db : Db) (tree_id : Nat) (update_date : Int) (girth : ℚ) (work : String)
      (uploads : List (String × Int)) (reminder : Option (Int × String)),
      (save_update db tree_id update_date girth work uploads reminder).trees.length =
        db.trees.length ∧
      ∀ i (h : i < db.trees.length)
        (h2 : i < (save_update db tree_id update_date girth work uploads reminder).trees.length),
        ((save_update db tree_id update_date girth work uploads reminder).trees.get
            ⟨i, h2⟩).id = (db.trees.get ⟨i, h⟩).id ∧
        ((save_update db tree_id update_date girth work uploads reminder).trees.get
            ⟨i, h2⟩).tree_number = (db.trees.get ⟨i, h⟩).tree_number ∧
        ((save_update db tree_id update_date girth work uploads reminder).trees.get
            ⟨i, h2⟩).tree_name = (db.trees.get ⟨i, h⟩).tree_name ∧
        ((save_update db tree_id update_date girth work uploads reminder).trees.get
            ⟨i, h2⟩).species_id = (db.trees.get ⟨i, h⟩).species_id ∧
        ((save_update db tree_id update_date girth work uploads reminder).trees.get
            ⟨i, h2⟩).date_acquired = (db.trees.get ⟨i, h⟩).date_acquired ∧
        ((save_update db tree_id update_date girth work uploads reminder).trees.get
            ⟨i, h2⟩).origin_date = (db.trees.get ⟨i, h⟩).origin_date ∧
        ((save_update db tree_id update_date girth work uploads reminder).trees.get
            ⟨i, h2⟩).notes = (db.trees.get ⟨i, h⟩).notes ∧
        ((save_update db tree_id update_date girth work uploads reminder).trees.get
            ⟨i, h2⟩).is_archived = (db.trees.get ⟨i, h⟩).is_archived ∧
        ((db.trees.get ⟨i, h⟩).id = tree_id →
          ((save_update db tree_id update_date girth work uploads reminder).trees.get
            ⟨i, h2⟩).current_girth = some girth) ∧
        ((db.trees.get ⟨i, h⟩).id ≠ tree_id →
          ((save_update db tree_id update_date girth work uploads reminder).trees.get
            ⟨i, h2⟩).current_girth = (db.trees.get ⟨i, h⟩).current_girth)) ∧
    (∀ (db : Db) (update_id : Nat) (edit_date : Int) (edit_girth : ℚ) (edit_work : String),
      (save_update_edit db update_id edit_date edit_girth edit_work).trees = db.trees) := by
  constructor
  · intro db tree_id update_date girth work uploads reminder
    have htrees : (save_update db tree_id update_date girth work uploads reminder).trees =
        db.trees.map (fun t =>
          if t.id == tree_id then { t with current_girth := some girth } else t) := by
      unfold save_update
      cases reminder with
      | none => simp [add_upload_photos_trees]
      | some r => simp [add_upload_photos_trees]
    refine ⟨by rw [htrees]; simp, ?_⟩
    intro i h h2
    have hget : (save_update db tree_id update_date girth work uploads reminder).trees.get
        ⟨i, h2⟩ = (fun t =>
          if t.id == tree_id then { t with current_girth := some girth } else t)
          (db.trees.get ⟨i, h⟩) := by
      have := List.get_of_eq htrees ⟨i, h2⟩
      rw [this]
      exact List.get_map _
    rw [hget]
    simp only [beq_iff_eq]
    split
    · rename_i hcond
      exact ⟨rfl, rfl, rfl, rfl, rfl, rfl, rfl, rfl, fun _ => rfl, fun hne => absurd hcond hne⟩
    · rename_i hcond
      exact ⟨rfl, rfl, rfl, rfl, rfl, rfl, rfl, rfl, fun hh => absurd hh hcond, fun _ => rfl⟩
  · intro db update_id edit_date edit_girth edit_work
    rfl

/-- Witness for C9 at a concrete database: saving an update with girth 7 for
tree 2 sets its `current_girth` to 7 and keeps its name. -/
theorem save_update_girth_spec_witness :
    ((save_update exDbC9 2 0 7 "pruned" [] none).trees.get
      ⟨0, by decide⟩).current_girth = some 7 ∧
    ((save_update exDbC9 2 0 7 "pruned" [] none).trees.get
      ⟨0, by decide⟩).tree_name = "Alice" :=
  ⟨((save_update_girth_spec.1 exDbC9 2 0 7 "pruned" [] none).2 0 (by decide)
      (by decide)).2.2.2.2.2.2.2.2.1 (by decide),
   ((save_update_girth_spec.1 exDbC9 2 0 7 "pruned" [] none).2 0 (by decide)
      (by decide)).2.2.1⟩

/-! ## The archive

The zip produced by `export_bonsai_data` and consumed by `import_bonsai_data`:
the `trees_data.json` document (typed as the Python object graph that
`json.dump`/`json.load` and `isoformat`/`fromisoformat` round-trip losslessly)
plus the `images/<tree_number>/<YYYYMMDD><ext>` files.  The Excel report
sheets are exported but never read back, and no claim touches them, so they
are not modelled.  The filesystem is an association list from path to file
bytes. -/

/-- One entry of a tree's `updates` list in `trees_data.json`. -/
structure UpdateJson where
  date : Int
  girth : Option ℚ
  work_performed : String
deriving DecidableEq, Repr

/-- One entry of a tree's `photos` list in `trees_data.json`. -/
structure PhotoJson where
  file_name : String
  photo_date : Int
  description : Option String
  is_starred : Int
deriving DecidableEq, Repr

/-- One entry of a tree's `reminders` list in `trees_data.json`. -/
structure ReminderJson where
  date : Int
  message : String
  is_completed : Int
deriving DecidableEq, Repr

/-- One tree object of `trees_data.json`. -/
structure TreeJson where
  tree_number : String
  tree_name : String
  species : String
  date_acquired : Int
  origin_date : Int
  current_girth : Option ℚ
  notes : Option String
  is_archived : Int
  training_age : ℚ
  true_age : ℚ
  updates : List UpdateJson
  photos : List PhotoJson
  reminders : List ReminderJson
deriving DecidableEq, Repr

/-- The archive: `trees_data.json` if present, and the per-tree image
folders in `images/` (folder name, then file name to bytes). -/
structure Archive where
  trees_data : Option (List TreeJson)
  images : List (String × List (String × String))
deriving DecidableEq, Repr

/-! ## Export (`app.py`, `export_bonsai_data`) -/

/-- `os.path.basename`. -/
def basename (p : String) : String := (p.splitOn "/").getLastD p

/-- The extension part of `os.path.splitext` (leading dots of the base name
do not start an extension). -/
def splitext_ext (p : String) : String :=
  let b := basename p
  let stripped := b.dropWhile (· = '.')
  if stripped.contains '.' then "." ++ (stripped.splitOn ".").getLastD ""
  else ""

/-- The `tree.updates` relationship: update rows of one tree in table order. -/
def updatesOf (db : Db) (tid : Nat) : List TreeUpdateRow :=
  db.tree_updates.filter (fun u => u.tree_id == tid)

/-- The `tree.photos` relationship: photo rows of one tree in table order. -/
def photosOf (db : Db) (tid : Nat) : List PhotoRow :=
  db.photos.filter (fun p => p.tree_id == tid)

/-- The `tree.reminders` relationship: reminder rows of one tree in table
order. -/
def remindersOf (db : Db) (tid : Nat) : List ReminderRow :=
  db.reminders.filter (fun r => r.tree_id == tid)

/-- Write a file into a directory listing (`shutil.copy2` semantics: a
same-named file is silently overwritten in place). -/
def upsert (dir : List (String × String)) (name content : String) :
    List (String × String) :=
  if dir.any (fun e => e.1 == name) then
    dir.map (fun e => if e.1 == name then (name, content) else e)
  else dir ++ [(name, content)]

/-- The archive file name of a photo:
`photo.photo_date.strftime("%Y%m%d")` plus the original extension. -/
def photoArchiveName (p : PhotoRow) : String :=
  String.mk (dayStr p.photo_date) ++ splitext_ext p.file_path

/-- The per-tree image copy loop of the export: photos whose file exists are
copied under the tree's folder under their archive name. -/
def exportTreeImages (fs : List (String × String)) (photos : List PhotoRow) :
    List (String × String) :=
  photos.foldl (fun dir photo =>
    match fs.lookup photo.file_path with
    | none => dir
    | some content => upsert dir (photoArchiveName photo) content) []

/-- One tree's object in `trees_data.json`.  `tree.species_info.name` is an
id join against the species table; a dangling `species_id` makes the Python
attribute access raise, modelled as `none`. -/
def treeJson (db : Db) (now : Int) (t : TreeRow) : Option TreeJson :=
  (db.species.find? (fun s => s.id == t.species_id)).map (fun sp =>
    { tree_number := t.tree_number, tree_name := t.tree_name, species := sp.name,
      date_acquired := t.date_acquired, origin_date := t.origin_date,
      current_girth := t.current_girth, notes := t.notes, is_archived := t.is_archived,
      training_age := training_age t now, true_age := true_age t now,
      updates := (updatesOf db t.id).map (fun u => ⟨u.update_date, u.girth, u.work_performed⟩),
      photos := (photosOf db t.id).map (fun p =>
        ⟨basename p.file_path, p.photo_date, p.description, p.is_starred⟩),
      reminders := (remindersOf db t.id).map (fun r =>
        ⟨r.reminder_date, r.message, r.is_completed⟩) })

/-- `export_bonsai_data(db)`: serialize every tree (with its updates, photos
and reminders) into `trees_data.json` and copy every existing photo file into
`images/<tree_number>/`.  The source mutates nothing and cleans up its
scratch directory, so the result is just the archive; `now` is the
`datetime.now()` used for the derived ages. -/
def export_bonsai_data (db : Db) (fs : List (String × String)) (now : Int) :
    Option Archive :=
  (db.trees.mapM (treeJson db now)).map (fun tds =>
    { trees_data := some tds,
      images := db.trees.map (fun t =>
        (t.tree_number, exportTreeImages fs (photosOf db t.id))) })

/-! ## Import (`app.py`, `import_bonsai_data`) -/

/-- `db.query(Photo).delete()`. -/
def clearPhotos (db : Db) : Db := { db with photos := [] }

/-- `db.query(TreeUpdate).delete()`. -/
def clearTreeUpdates (db : Db) : Db := { db with tree_updates := [] }

/-- `db.query(Reminder).delete()`. -/
def clearReminders (db : Db) : Db := { db with reminders := [] }

/-- `db.query(Tree).delete()`. -/
def clearTrees (db : Db) : Db := { db with trees := [] }

/-- The "Clear existing data" step of the import: Photo, then TreeUpdate,
then Reminder, then Tree, in that dependency order. -/
def clearData (db : Db) : Db :=
  clearTrees (clearReminders (clearTreeUpdates (clearPhotos db)))

/-- The "Restore updates" loop for one tree record. -/
def addUpdateRows (db : Db) (tid : Nat) (ups : List UpdateJson) : Db :=
  ups.foldl (fun db u =>
    { db with
      tree_updates := db.tree_updates ++ [⟨db.nextId, tid, u.date, u.girth, u.work_performed⟩],
      nextId := db.nextId + 1 }) db

/-- The "Restore reminders" loop for one tree record. -/
def addReminderRows (db : Db) (tid : Nat) (rs : List ReminderJson) : Db :=
  rs.foldl (fun db r =>
    { db with
      reminders := db.reminders ++ [⟨db.nextId, tid, r.date, r.message, r.is_completed⟩],
      nextId := db.nextId + 1 }) db

/-- Restore one tree record: resolve the species by name, creating it if
absent (the import inlines the same filter-by-name logic as
`get_or_create_species`), insert the tree row, then its updates and
reminders. -/
def restoreTree (db : Db) (td : TreeJson) : Db :=
  let res := get_or_create_species db td.species
  let db1 := res.1
  let t : TreeRow := ⟨db1.nextId, td.tree_number, td.tree_name, res.2.id, td.date_acquired,
    td.origin_date, td.current_girth, td.notes, td.is_archived⟩
  let db2 := { db1 with trees := db1.trees ++ [t], nextId := db1.nextId + 1 }
  addReminderRows (addUpdateRows db2 t.id td.updates) t.id td.reminders

/-- The "Restore trees and related data" loop. -/
def restoreTrees (db : Db) (tds : List TreeJson) : Db := tds.foldl restoreTree db

/-- The per-file loop of the image restore: copy the file into
`image_dir/<folder>/` (bytes not modelled) and insert the photo row with
`photo_date` parsed from `image_file[:8]`, description "Imported photo" and
`is_starred = 0`; a parse failure raises `ValueError`. -/
def importTreeImages (db : Db) (image_dir folder : String) (tid : Nat) :
    List (String × String) → Except (Db × String) Db
  | [] => .ok db
  | (fname, _) :: rest =>
    match parseYMD fname.data with
    | none => .error (db, "time data does not match format")
    | some pd =>
      importTreeImages
        { db with
          photos := db.photos ++
            [⟨db.nextId, tid, image_dir ++ "/" ++ folder ++ "/" ++ fname, pd,
              some "Imported photo", 0⟩],
          nextId := db.nextId + 1 } image_dir folder tid rest

/-- The per-folder loop of the image restore: look the tree up by
`tree_number` and skip the folder when it is missing. -/
def importImages (db : Db) (image_dir : String) :
    List (String × List (String × String)) → Except (Db × String) Db
  | [] => .ok db
  | (folder, files) :: rest =>
    match db.trees.find? (fun t => t.tree_number == folder) with
    | none => importImages db image_dir rest
    | some tree =>
      match importTreeImages db image_dir folder tree.id files with
      | .error e => .error e
      | .ok db1 => importImages db1 image_dir rest

/-- The body of `import_bonsai_data`'s `try:` block, with the exception
channel explicit: load `trees_data.json`, raising `FileNotFoundError` when it
is absent; clear the four tables; restore the trees and related data; restore
the images.  An error carries the database state at the raise point (already
committed mutations are not rolled back). -/
def import_body (db : Db) (ar : Archive) (image_dir : String) :
    Except (Db × String) Db :=
  match ar.trees_data with
  | none => .error (db, "Missing trees_data.json in backup")
  | some tds => importImages (restoreTrees (clearData db) tds) image_dir ar.images

/-- `import_bonsai_data(db, zip_file_path, image_dir)`: the whole body runs
inside `try: ... except Exception: print(...); return False`, so every
internal exception becomes the logged return value `False`. -/
def import_bonsai_data (db : Db) (ar : Archive) (image_dir : String) : Db × Bool :=
  match import_body db ar image_dir with
  | .ok db1 => (db1, true)
  | .error e => (e.1, false)

/-- C2: the import never propagates an exception: it always returns a boolean
result, `true` exactly when the body ran to completion and `false` exactly
when the body raised internally. -/
theorem import_never_raises :
    ∀ (db : Db) (ar : Archive) (image_dir : String),
      ((import_bonsai_data db ar image_dir).2 = true ∧
        ∃ db1, import_body db ar image_dir = .ok db1 ∧
          import_bonsai_data db ar image_dir = (db1, true)) ∨
      ((import_bonsai_data db ar image_dir).2 = false ∧
        ∃ e, import_body db ar image_dir = .error e ∧
          import_bonsai_data db ar image_dir = (e.1, false)) := by
  intro db ar image_dir
  unfold import_bonsai_data
  cases h : import_body db ar image_dir with
  | ok db1 => exact Or.inl ⟨rfl, db1, rfl, rfl⟩
  | error e => exact Or.inr ⟨rfl, e, rfl, rfl⟩

/-- C4: when the archive has no `trees_data.json` the import fails, and since
the document is loaded before the deletion step, the database is returned
unchanged. -/
theorem import_missing_data_spec :
    ∀ (db : Db) (ar : Archive) (image_dir : String),
      ar.trees_data = none →
      import_bonsai_data db ar image_dir = (db, false) := by
  intro db ar image_dir h
  unfold import_bonsai_data import_body
  rw [h]

/-- Witness for C4: importing an archive without `trees_data.json` into a
concrete one-tree database reports failure and leaves it untouched. -/
theorem import_missing_data_spec_witness :
    import_bonsai_data exDbC9 ⟨none, [("BON-001", [("19700101.jpg", "bytes")])]⟩ "imgs" =
      (exDbC9, false) :=
  import_missing_data_spec exDbC9 ⟨none, [("BON-001", [("19700101.jpg", "bytes")])]⟩ "imgs" rfl

/-- C3: with a loadable data document the import proceeds by clearing the
four tables — Photo, TreeUpdate, Reminder, Tree, in that dependency order,
leaving the species table intact — before restoring from the archive, and a
tree record's species is resolved by name: an existing row of that name is
reused, otherwise a new one is created. -/
theorem import_destructive_replace_spec :
    ∀ (db : Db) (ar : Archive) (image_dir : String) (tds : List TreeJson),
      ar.trees_data = some tds →
      (import_body db ar image_dir =
          importImages (restoreTrees (clearData db) tds) image_dir ar.images ∧
        clearData db =
          { db with photos := [], tree_updates := [], reminders := [], trees := [] } ∧
        (clearData db).species = db.species) ∧
      (∀ name : String,
        ((∃ s ∈ db.species, s.name = name) →
          ∃ s ∈ db.species, s.name = name ∧ get_or_create_species db name = (db, s)) ∧
        ((∀ s ∈ db.species, s.name ≠ name) →
          get_or_create_species db name =
            ({ db with
                species := db.species ++ [⟨db.nextId, name⟩],
                nextId := db.nextId + 1 }, ⟨db.nextId, name⟩))) := by
  intro db ar image_dir tds h
  refine ⟨⟨?_, rfl, rfl⟩, ?_⟩
  · unfold import_body
    rw [h]
  · intro name
    constructor
    · intro hex
      cases hfind : db.species.find? (fun s => s.name == name) with
      | none =>
        exfalso
        rcases hex with ⟨s, hs, hname⟩
        have := List.find?_eq_none.mp hfind s hs
        simp [hname] at this
      | some s =>
        refine ⟨s, List.mem_of_find?_eq_some hfind, ?_, ?_⟩
        · have := List.find?_some hfind
          simpa using this
        · unfold get_or_create_species
          rw [hfind]
    · intro hall
      have hfind : db.species.find? (fun s => s.name == name) = none := by
        rw [List.find?_eq_none]
        intro s hs
        simpa using hall s hs
      unfold get_or_create_species
      rw [hfind]

/-- Witness for C3 at a concrete database and archive: the body is the
restore applied to the cleared database, the clear empties the four tables,
and "Pine" is reused while "Oak" is created. -/
theorem import_destructive_replace_spec_witness :
    (import_body exDbC9 ⟨some [], []⟩ "imgs" =
        importImages (restoreTrees (clearData exDbC9) []) "imgs" [] ∧
      clearData exDbC9 =
        { exDbC9 with photos := [], tree_updates := [], reminders := [], trees := [] } ∧
      (clearData exDbC9).species = exDbC9.species) ∧
    ((∃ s ∈ exDbC9.species, s.name = "Pine" ∧
        get_or_create_species exDbC9 "Pine" = (exDbC9, s)) ∧
      get_or_create_species exDbC9 "Oak" =
        ({ exDbC9 with
            species := exDbC9.species ++ [⟨exDbC9.nextId, "Oak"⟩],
            nextId := exDbC9.nextId + 1 }, ⟨exDbC9.nextId, "Oak"⟩)) :=
  ⟨(import_destructive_replace_spec exDbC9 ⟨some [], []⟩ "imgs" [] rfl).1,
   ((import_destructive_replace_spec exDbC9 ⟨some [], []⟩ "imgs" [] rfl).2 "Pine").1
      ⟨⟨1, "Pine"⟩, by decide, rfl⟩,
   ((import_destructive_replace_spec exDbC9 ⟨some [], []⟩ "imgs" [] rfl).2 "Oak").2
      (by decide)⟩

/-! ## C10: photo rows created by the import -/

/-- The property C10 asserts of every imported photo row. -/
def importedPhotoPred (p : PhotoRow) : Prop :=
  p.description = some "Imported photo" ∧ p.is_starred = 0

theorem importTreeImages_pred :
    ∀ (files : List (String × String)) (db : Db) (image_dir folder : String) (tid : Nat)
      (db1 : Db),
      importTreeImages db image_dir folder tid files = .ok db1 →
      (∀ p ∈ db.photos, importedPhotoPred p) → ∀ p ∈ db1.photos, importedPhotoPred p := by
  intro files
  induction files with
  | nil =>
    intro db image_dir folder tid db1 hok hpre
    simp only [importTreeImages] at hok
    cases hok
    exact hpre
  | cons f rest ih =>
    intro db image_dir folder tid db1 hok hpre
    rcases f with ⟨fname, content⟩
    simp only [importTreeImages] at hok
    cases hpd : parseYMD fname.data with
    | none => rw [hpd] at hok; cases hok
    | some pd =>
      rw [hpd] at hok
      apply ih _ _ _ _ _ hok
      intro p hp
      rcases List.mem_append.mp hp with h | h
      · exact hpre p h
      · rcases List.mem_singleton.mp h with rfl
        exact ⟨rfl, rfl⟩

theorem importImages_pred :
    ∀ (pairs : List (String × List (String × String))) (db : Db) (image_dir : String)
      (db1 : Db),
      importImages db image_dir pairs = .ok db1 →
      (∀ p ∈ db.photos, importedPhotoPred p) → ∀ p ∈ db1.photos, importedPhotoPred p := by
  intro pairs
  induction pairs with
  | nil =>
    intro db image_dir db1 hok hpre
    simp only [importImages] at hok
    cases hok
    exact hpre
  | cons pr rest ih =>
    intro db image_dir db1 hok hpre
    rcases pr with ⟨folder, files⟩
    simp only [importImages] at hok
    cases hfind : db.trees.find? (fun t => t.tree_number == folder) with
    | none =>
      rw [hfind] at hok
      exact ih _ _ _ hok hpre
    | some tree =>
      rw [hfind] at hok
      dsimp only at hok
      cases hstep : importTreeImages db image_dir folder tree.id files with
      | error e => rw [hstep] at hok; cases hok
      | ok db2 =>
        rw [hstep] at hok
        exact ih _ _ _ hok (importTreeImages_pred files db _ _ _ _ hstep hpre)

theorem get_or_create_species_tables (db : Db) (name : String) :
    ((get_or_create_species db name).1).trees = db.trees ∧
    ((get_or_create_species db name).1).tree_updates = db.tree_updates ∧
    ((get_or_create_species db name).1).photos = db.photos ∧
    ((get_or_create_species db name).1).reminders = db.reminders := by
  unfold get_or_create_species
  cases db.species.find? (fun s => s.name == name) <;> exact ⟨rfl, rfl, rfl, rfl⟩

theorem addUpdateRows_tables :
    ∀ (ups : List UpdateJson) (db : Db) (tid : Nat),
      (addUpdateRows db tid ups).trees = db.trees ∧
      (addUpdateRows db tid ups).photos = db.photos ∧
      (addUpdateRows db tid ups).reminders = db.reminders ∧
      (addUpdateRows db tid ups).species = db.species := by
  intro ups
  induction ups with
  | nil => intro db tid; exact ⟨rfl, rfl, rfl, rfl⟩
  | cons u rest ih => intro db tid; exact ih _ tid

theorem addReminderRows_tables :
    ∀ (rs : List ReminderJson) (db : Db) (tid : Nat),
      (addReminderRows db tid rs).trees = db.trees ∧
      (addReminderRows db tid rs).photos = db.photos ∧
      (addReminderRows db tid rs).tree_updates = db.tree_updates ∧
      (addReminderRows db tid rs).species = db.species := by
  intro rs
  induction rs with
  | nil => intro db tid; exact ⟨rfl, rfl, rfl, rfl⟩
  | cons r rest ih => intro db tid; exact ih _ tid

theorem restoreTrees_photos :
    ∀ (tds : List TreeJson) (db : Db), (restoreTrees db tds).photos = db.photos := by
  intro tds
  induction tds with
  | nil => intro db; rfl
  | cons td rest ih =>
    intro db
    show (restoreTrees (restoreTree db td) rest).photos = db.photos
    rw [ih]
    unfold restoreTree
    rw [(addReminderRows_tables _ _ _).2.1, (addUpdateRows_tables _ _ _).2.1]
    exact (get_or_create_species_tables db td.species).2.2.1

/-- C10: every photo row present after a successful import carries the fixed
description "Imported photo" and `is_starred = 0`, whatever the archive's
data document recorded for its photos. -/
theorem import_photo_rows_spec :
    ∀ (db : Db) (ar : Archive) (image_dir : String) (db1 : Db),
      import_bonsai_data db ar image_dir = (db1, true) →
      ∀ p ∈ db1.photos, p.description = some "Imported photo" ∧ p.is_starred = 0 := by
  intro db ar image_dir db1 h
  have hok : import_body db ar image_dir = .ok db1 := by
    unfold import_bonsai_data at h
    cases hbody : import_body db ar image_dir with
    | ok d => rw [hbody] at h; cases h; rfl
    | error e => rw [hbody] at h; cases h
  cases htd : ar.trees_data with
  | none => unfold import_body at hok; rw [htd] at hok; cases hok
  | some tds =>
    unfold import_body at hok
    rw [htd] at hok
    intro p hp
    refine importImages_pred ar.images (restoreTrees (clearData db) tds) image_dir db1
      hok ?_ p hp
    rw [restoreTrees_photos]
    intro q hq
    simp [clearData, clearTrees, clearReminders, clearTreeUpdates, clearPhotos] at hq

/-- A small archive: one tree record and one image file for it. -/
def exArchive1 : Archive :=
  ⟨some [⟨"BON-001", "Alice", "Pine", 0, 0, none, none, 0, 0, 0, [], [], []⟩],
    [("BON-001", [("19700101.jpg", "b")])]⟩

/-- The photo row the import of `exArchive1` into the empty database
creates. -/
def photoX : PhotoRow :=
  ⟨3, 2, "imgs/BON-001/19700101.jpg", 19700101 * 86400, some "Imported photo", 0⟩

/-- Witness for C10: the photo row created by importing `exArchive1` into the
empty database has the fixed description and an unset star. -/
theorem import_photo_rows_spec_witness :
    photoX ∈ (import_bonsai_data emptyDb exArchive1 "imgs").1.photos ∧
    photoX.description = some "Imported photo" ∧ photoX.is_starred = 0 :=
  ⟨by decide,
   import_photo_rows_spec emptyDb exArchive1 "imgs"
     (import_bonsai_data emptyDb exArchive1 "imgs").1 (by decide) photoX (by decide)⟩

/-! ## C1: the export/import round trip -/

/-- A collection with one photo: description "hello", starred. -/
def exDbC1 : Db :=
  ⟨[⟨1, "Pine"⟩], [⟨2, "BON-001", "Alice", 1, 0, 0, none, none, 0⟩],
    [], [⟨3, 2, "photos/p.jpg", 0, some "hello", 1⟩], [], 4⟩

/-- The image store backing `exDbC1`. -/
def exFsC1 : List (String × String) := [("photos/p.jpg", "bytes")]

/-- The archive `export_bonsai_data exDbC1 exFsC1 0` produces. -/
def exArchiveC1 : Archive := (export_bonsai_data exDbC1 exFsC1 0).getD ⟨none, []⟩

/-- Counterexample to C1 as stated: exporting and re-importing `exDbC1`
succeeds, but the photo comes back with description "Imported photo" instead
of "hello" and with its star cleared — photo `description` and `is_starred`
do not round-trip. -/
theorem roundtrip_photo_counterexample :
    (export_bonsai_data exDbC1 exFsC1 0).isSome = true ∧
    (import_bonsai_data exDbC1 exArchiveC1 "imgs").2 = true ∧
    exDbC1.photos.map (fun p => (p.photo_date, p.description, p.is_starred)) =
      [(0, some "hello", 1)] ∧
    (import_bonsai_data exDbC1 exArchiveC1 "imgs").1.photos.map
        (fun p => (p.photo_date, p.description, p.is_starred)) =
      [(0, some "Imported photo", 0)] ∧
    (some "hello" : Option String) ≠ some "Imported photo" := by decide

/-- The scalar columns of a tree row, as exported. -/
def treeScalars (t : TreeRow) :
    String × String × Nat × Int × Int × Option ℚ × Option String × Int :=
  (t.tree_number, t.tree_name, t.species_id, t.date_acquired, t.origin_date,
    t.current_girth, t.notes, t.is_archived)

/-- A tree's updates, projected to their exported columns. -/
def updatesProj (db : Db) (tid : Nat) : List (Int × Option ℚ × String) :=
  (updatesOf db tid).map (fun u => (u.update_date, u.girth, u.work_performed))

/-- A tree's reminders, projected to their exported columns. -/
def remindersProj (db : Db) (tid : Nat) : List (Int × String × Int) :=
  (remindersOf db tid).map (fun r => (r.reminder_date, r.message, r.is_completed))

/-- A tree's photos, projected to date, description and star. -/
def photosProj (db : Db) (tid : Nat) : List (Int × Option String × Int) :=
  (photosOf db tid).map (fun p => (p.photo_date, p.description, p.is_starred))

theorem mapM_option_spec {α β : Type} (f : α → Option β) :
    ∀ (l : List α) (ys : List β), l.mapM f = some ys →
      ys.length = l.length ∧
      (∀ i (h : i < l.length) (h2 : i < ys.length),
        f (l.get ⟨i, h⟩) = some (ys.get ⟨i, h2⟩)) ∧
      (∀ y ∈ ys, ∃ x ∈ l, f x = some y) := by
  intro l
  induction l with
  | nil =>
    intro ys h
    rw [List.mapM_nil] at h
    cases h
    refine ⟨rfl, ?_, ?_⟩
    · intro i hi hi2
      simp at hi
    · intro y hy
      simp at hy
  | cons x xs ih =>
    intro ys h
    rw [List.mapM_cons] at h
    cases hfx : f x with
    | none => rw [hfx] at h; simp at h
    | some b =>
      rw [hfx] at h
      cases hrest : xs.mapM f with
      | none => rw [hrest] at h; simp at h
      | some bs =>
        rw [hrest] at h
        simp only [Option.bind_some, Option.pure_def, Option.bind_eq_bind,
          Option.some_bind, Option.some.injEq] at h
        subst h
        obtain ⟨hlen, hidx, hmem⟩ := ih bs hrest
        refine ⟨by simp [hlen], ?_, ?_⟩
        · intro i hi hi2
          cases i with
          | zero => simpa using hfx
          | succ j => simpa using hidx j (by simpa using hi) (by simpa using hi2)
        · intro y hy
          rcases List.mem_cons.mp hy with rfl | hy
          · exact ⟨x, List.mem_cons_self _ _, hfx⟩
          · rcases hmem y hy with ⟨x1, hx1, hfx1⟩
            exact ⟨x1, List.mem_cons_of_mem _ hx1, hfx1⟩

theorem dayStr_of_nonneg (t : Int) (h0 : 0 ≤ dayNum t) :
    dayStr t = padZero 8 (natRepr (dayNum t).toNat) := by
  unfold dayStr
  rw [if_neg (by omega)]

theorem length_dayStr (t : Int) (h0 : 0 ≤ dayNum t) (h8 : dayNum t < 100000000) :
    (dayStr t).length = 8 := by
  rw [dayStr_of_nonneg t h0, length_padZero]
  have : (natRepr (dayNum t).toNat).length ≤ 8 :=
    length_natRepr_le _ 8 (by norm_num) (by norm_num; omega)
  omega

theorem parseDec_dayStr (t : Int) (h0 : 0 ≤ dayNum t) :
    (parseDec (dayStr t) : Int) = dayNum t := by
  rw [dayStr_of_nonneg t h0, parseDec_padZero, parseDec_natRepr]
  exact Int.toNat_of_nonneg h0

theorem all_isDigit_dayStr (t : Int) (h0 : 0 ≤ dayNum t) :
    (dayStr t).all Char.isDigit = true := by
  rw [List.all_eq_true, dayStr_of_nonneg t h0]
  exact mem_padZero_isDigit 8 _ (mem_natRepr_isDigit _)

theorem parseYMD_dayStr (t : Int) (ext : String) (h0 : 0 ≤ dayNum t)
    (h8 : dayNum t < 100000000) :
    parseYMD (String.mk (dayStr t) ++ ext).data = some (midnight t) := by
  have hd : (String.mk (dayStr t) ++ ext).data = dayStr t ++ ext.data :=
    String.data_append _ _
  have hlen := length_dayStr t h0 h8
  have htake : (dayStr t ++ ext.data).take 8 = dayStr t := by
    rw [← hlen]
    exact List.take_left _ _
  unfold parseYMD
  rw [hd, htake, if_pos ⟨hlen, all_isDigit_dayStr t h0⟩, parseDec_dayStr t h0]
  rfl

theorem photoArchiveName_day_inj (p q : PhotoRow)
    (hp0 : 0 ≤ dayNum p.photo_date) (hp8 : dayNum p.photo_date < 100000000)
    (hq0 : 0 ≤ dayNum q.photo_date) (hq8 : dayNum q.photo_date < 100000000)
    (h : photoArchiveName p = photoArchiveName q) :
    dayNum p.photo_date = dayNum q.photo_date := by
  have hdata := congrArg String.data h
  unfold photoArchiveName at hdata
  rw [String.data_append, String.data_append] at hdata
  have htake := congrArg (List.take 8) hdata
  have hp : (dayStr p.photo_date ++ (splitext_ext p.file_path).data).take 8 =
      dayStr p.photo_date := by
    rw [← length_dayStr p.photo_date hp0 hp8]
    exact List.take_left _ _
  have hq : (dayStr q.photo_date ++ (splitext_ext q.file_path).data).take 8 =
      dayStr q.photo_date := by
    rw [← length_dayStr q.photo_date hq0 hq8]
    exact List.take_left _ _
  rw [hp, hq] at htake
  have hpar := congrArg (fun l => (parseDec l : Int)) htake
  simp only at hpar
  rwa [parseDec_dayStr p.photo_date hp0, parseDec_dayStr q.photo_date hq0] at hpar

theorem names_nodup_of_days_nodup :
    ∀ (photos : List PhotoRow),
      (∀ p ∈ photos, 0 ≤ dayNum p.photo_date ∧ dayNum p.photo_date < 100000000) →
      (photos.map (fun p => dayNum p.photo_date)).Nodup →
      (photos.map photoArchiveName).Nodup := by
  intro photos
  induction photos with
  | nil => intro _ _; simp
  | cons p ps ih =>
    intro hrange hnd
    simp only [List.map_cons, List.nodup_cons] at hnd ⊢
    constructor
    · intro hmem
      rcases List.mem_map.mp hmem with ⟨q, hq, heq⟩
      have hr := hrange p (List.mem_cons_self _ _)
      have hrq := hrange q (List.mem_cons_of_mem _ hq)
      have hday := photoArchiveName_day_inj q p hrq.1 hrq.2 hr.1 hr.2 heq
      exact hnd.1 (List.mem_map.mpr ⟨q, hq, hday⟩)
    · exact ih (fun q hq => hrange q (List.mem_cons_of_mem _ hq)) hnd.2

theorem upsert_of_fresh (dir : List (String × String)) (name content : String)
    (h : ∀ e ∈ dir, e.1 ≠ name) :
    upsert dir name content = dir ++ [(name, content)] := by
  unfold upsert
  rw [if_neg]
  rw [Bool.not_eq_true, List.any_eq_false]
  intro e he
  simpa using h e he

theorem exportTreeImages_go :
    ∀ (photos : List PhotoRow) (acc : List (String × String)) (fs : List (String × String)),
      (∀ p ∈ photos, (fs.lookup p.file_path).isSome = true) →
      (∀ p ∈ photos, ∀ e ∈ acc, e.1 ≠ photoArchiveName p) →
      (photos.map photoArchiveName).Nodup →
      photos.foldl (fun dir photo =>
        match fs.lookup photo.file_path with
        | none => dir
        | some content => upsert dir (photoArchiveName photo) content) acc =
      acc ++ photos.map (fun p => (photoArchiveName p, (fs.lookup p.file_path).getD "")) := by
  intro photos
  induction photos with
  | nil => intro acc fs _ _ _; simp
  | cons p ps ih =>
    intro acc fs hex hacc hnd
    obtain ⟨c, hc⟩ := Option.isSome_iff_exists.mp (hex p (List.mem_cons_self _ _))
    simp only [List.map_cons, List.nodup_cons] at hnd
    have hstep : (match List.lookup p.file_path fs with
        | none => acc
        | some content => upsert acc (photoArchiveName p) content) =
        acc ++ [(photoArchiveName p, c)] := by
      rw [hc]
      exact upsert_of_fresh acc _ c (fun e he => hacc p (List.mem_cons_self _ _) e he)
    rw [List.foldl_cons, hstep,
      ih (acc ++ [(photoArchiveName p, c)]) fs
        (fun q hq => hex q (List.mem_cons_of_mem _ hq))
        (fun q hq e he => by
          rcases List.mem_append.mp he with he1 | he2
          · exact hacc q (List.mem_cons_of_mem _ hq) e he1
          · rcases List.mem_singleton.mp he2 with rfl
            intro heq
            exact hnd.1 (List.mem_map.mpr ⟨q, hq, heq.symm⟩))
        hnd.2]
    rw [List.append_assoc, List.map_cons, hc]
    rfl

theorem exportTreeImages_eq_map (fs : List (String × String)) (photos : List PhotoRow)
    (hex : ∀ p ∈ photos, (fs.lookup p.file_path).isSome = true)
    (hnd : (photos.map photoArchiveName).Nodup) :
    exportTreeImages fs photos =
      photos.map (fun p => (photoArchiveName p, (fs.lookup p.file_path).getD "")) := by
  unfold exportTreeImages
  exact exportTreeImages_go photos [] fs hex (by simp) hnd

theorem addUpdateRows_spec :
    ∀ (ups : List UpdateJson) (db : Db) (tid : Nat),
      ∃ rows, (addUpdateRows db tid ups).tree_updates = db.tree_updates ++ rows ∧
        rows.map (fun u => (u.tree_id, u.update_date, u.girth, u.work_performed)) =
          ups.map (fun u => (tid, u.date, u.girth, u.work_performed)) ∧
        (addUpdateRows db tid ups).nextId = db.nextId + ups.length := by
  intro ups
  induction ups with
  | nil =>
    intro db tid
    exact ⟨[], by simp [addUpdateRows], rfl, by simp [addUpdateRows]⟩
  | cons u rest ih =>
    intro db tid
    obtain ⟨rows, h1, h2, h3⟩ := ih
      { db with
        tree_updates := db.tree_updates ++ [⟨db.nextId, tid, u.date, u.girth,
          u.work_performed⟩],
        nextId := db.nextId + 1 } tid
    refine ⟨⟨db.nextId, tid, u.date, u.girth, u.work_performed⟩ :: rows, ?_, ?_, ?_⟩
    · show (addUpdateRows _ tid rest).tree_updates = _
      rw [h1]
      simp
    · simp only [List.map_cons, h2]
    · show (addUpdateRows _ tid rest).nextId = _
      rw [h3]
      simp only [List.length_cons]
      omega

theorem addReminderRows_spec :
    ∀ (rs : List ReminderJson) (db : Db) (tid : Nat),
      ∃ rows, (addReminderRows db tid rs).reminders = db.reminders ++ rows ∧
        rows.map (fun x => (x.tree_id, x.reminder_date, x.message, x.is_completed)) =
          rs.map (fun x => (tid, x.date, x.message, x.is_completed)) ∧
        (addReminderRows db tid rs).nextId = db.nextId + rs.length := by
  intro rs
  induction rs with
  | nil =>
    intro db tid
    exact ⟨[], by simp [addReminderRows], rfl, by simp [addReminderRows]⟩
  | cons x rest ih =>
    intro db tid
    obtain ⟨rows, h1, h2, h3⟩ := ih
      { db with
        reminders := db.reminders ++ [⟨db.nextId, tid, x.date, x.message,
          x.is_completed⟩],
        nextId := db.nextId + 1 } tid
    refine ⟨⟨db.nextId, tid, x.date, x.message, x.is_completed⟩ :: rows, ?_, ?_, ?_⟩
    · show (addReminderRows _ tid rest).reminders = _
      rw [h1]
      simp
    · simp only [List.map_cons, h2]
    · show (addReminderRows _ tid rest).nextId = _
      rw [h3]
      simp only [List.length_cons]
      omega

/-- What the restore loop guarantees for one tree record `td` and the tree
row `t` created from it, relative to the final state `r` and the species
table the record was resolved against. -/
def RestoredTreeRel (r : Db) (speciesTable : List SpeciesRow) (td : TreeJson)
    (t : TreeRow) : Prop :=
  t.tree_number = td.tree_number ∧ t.tree_name = td.tree_name ∧
  t.date_acquired = td.date_acquired ∧ t.origin_date = td.origin_date ∧
  t.current_girth = td.current_girth ∧ t.notes = td.notes ∧
  t.is_archived = td.is_archived ∧
  (∀ s ∈ speciesTable, s.name = td.species → t.species_id = s.id) ∧
  updatesProj r t.id = td.updates.map (fun u => (u.date, u.girth, u.work_performed)) ∧
  remindersProj r t.id = td.reminders.map (fun x => (x.date, x.message, x.is_completed))

theorem restoreTrees_spec :
    ∀ (tds : List TreeJson) (st : Db),
      (∀ td ∈ tds, ∃ s ∈ st.species, s.name = td.species) →
      (st.species.map SpeciesRow.name).Nodup →
      (∀ u ∈ st.tree_updates, u.tree_id < st.nextId) →
      (∀ x ∈ st.reminders, x.tree_id < st.nextId) →
      (restoreTrees st tds).species = st.species ∧
      (restoreTrees st tds).photos = st.photos ∧
      st.nextId ≤ (restoreTrees st tds).nextId ∧
      ∃ ts newUps newRems,
        (restoreTrees st tds).trees = st.trees ++ ts ∧
        (restoreTrees st tds).tree_updates = st.tree_updates ++ newUps ∧
        (restoreTrees st tds).reminders = st.reminders ++ newRems ∧
        (∀ u ∈ newUps, st.nextId ≤ u.tree_id ∧ u.tree_id < (restoreTrees st tds).nextId) ∧
        (∀ x ∈ newRems, st.nextId ≤ x.tree_id ∧ x.tree_id < (restoreTrees st tds).nextId) ∧
        (∀ t ∈ ts, st.nextId ≤ t.id ∧ t.id < (restoreTrees st tds).nextId) ∧
        List.Pairwise (fun a b => a.id < b.id) ts ∧
        List.Forall₂ (RestoredTreeRel (restoreTrees st tds) st.species) tds ts := by
  intro tds
  induction tds with
  | nil =>
    intro st _ _ H3 H4
    refine ⟨rfl, rfl, le_rfl, [], [], [], by simp [restoreTrees], by simp [restoreTrees],
      by simp [restoreTrees], ?_, ?_, ?_, List.Pairwise.nil, List.Forall₂.nil⟩
    · intro u hu
      simp at hu
    · intro x hx
      simp at hx
    · intro t ht
      simp at ht
  | cons td tds1 ih =>
    intro st H1 H2 H3 H4
    obtain ⟨sp, hspmem, hspname⟩ := H1 td (List.mem_cons_self _ _)
    obtain ⟨s1, hf, hs1mem, hs1name⟩ :
        ∃ s1, st.species.find? (fun s => s.name == td.species) = some s1 ∧
          s1 ∈ st.species ∧ s1.name = td.species := by
      cases hf : st.species.find? (fun s => s.name == td.species) with
      | none =>
        exfalso
        have := List.find?_eq_none.mp hf sp hspmem
        simp [hspname] at this
      | some s1 =>
        exact ⟨s1, rfl, List.mem_of_find?_eq_some hf, by simpa using List.find?_some hf⟩
    have hgoc : get_or_create_species st td.species = (st, s1) := by
      unfold get_or_create_species
      rw [hf]
    have hrt : restoreTree st td =
        addReminderRows (addUpdateRows
          { st with
            trees := st.trees ++ [⟨st.nextId, td.tree_number, td.tree_name, s1.id,
              td.date_acquired, td.origin_date, td.current_girth, td.notes,
              td.is_archived⟩],
            nextId := st.nextId + 1 } st.nextId td.updates) st.nextId td.reminders := by
      simp only [restoreTree, hgoc]
    obtain ⟨upRows, hup1, hup2, hup3⟩ := addUpdateRows_spec td.updates
      { st with
        trees := st.trees ++ [⟨st.nextId, td.tree_number, td.tree_name, s1.id,
          td.date_acquired, td.origin_date, td.current_girth, td.notes, td.is_archived⟩],
        nextId := st.nextId + 1 } st.nextId
    obtain ⟨remRows, hrem1, hrem2, hrem3⟩ := addReminderRows_spec td.reminders
      (addUpdateRows
        { st with
          trees := st.trees ++ [⟨st.nextId, td.tree_number, td.tree_name, s1.id,
            td.date_acquired, td.origin_date, td.current_girth, td.notes,
            td.is_archived⟩],
          nextId := st.nextId + 1 } st.nextId td.updates) st.nextId
    have hupid : ∀ u ∈ upRows, u.tree_id = st.nextId := by
      intro u hu
      have hmm : (u.tree_id, u.update_date, u.girth, u.work_performed) ∈
          td.updates.map (fun v => (st.nextId, v.date, v.girth, v.work_performed)) := by
        rw [← hup2]
        exact List.mem_map_of_mem _ hu
      rcases List.mem_map.mp hmm with ⟨v, _, hv⟩
      have := congrArg Prod.fst hv
      simpa using this.symm
    have hremid : ∀ x ∈ remRows, x.tree_id = st.nextId := by
      intro x hx
      have hmm : (x.tree_id, x.reminder_date, x.message, x.is_completed) ∈
          td.reminders.map (fun v => (st.nextId, v.date, v.message, v.is_completed)) := by
        rw [← hrem2]
        exact List.mem_map_of_mem _ hx
      rcases List.mem_map.mp hmm with ⟨v, _, hv⟩
      have := congrArg Prod.fst hv
      simpa using this.symm
    have hst1_species : (restoreTree st td).species = st.species := by
      rw [hrt, (addReminderRows_tables _ _ _).2.2.2, (addUpdateRows_tables _ _ _).2.2.2]
    have hst1_photos : (restoreTree st td).photos = st.photos := by
      rw [hrt, (addReminderRows_tables _ _ _).2.1, (addUpdateRows_tables _ _ _).2.1]
    have hst1_trees : (restoreTree st td).trees =
        st.trees ++ [⟨st.nextId, td.tree_number, td.tree_name, s1.id, td.date_acquired,
          td.origin_date, td.current_girth, td.notes, td.is_archived⟩] := by
      rw [hrt, (addReminderRows_tables _ _ _).1, (addUpdateRows_tables _ _ _).1]
    have hst1_ups : (restoreTree st td).tree_updates = st.tree_updates ++ upRows := by
      rw [hrt, (addReminderRows_tables _ _ _).2.2.1, hup1]
    have hst1_rems : (restoreTree st td).reminders = st.reminders ++ remRows := by
      rw [hrt, hrem1, (addUpdateRows_tables _ _ _).2.2.1]
    have hst1_next : (restoreTree st td).nextId =
        st.nextId + 1 + td.updates.length + td.reminders.length := by
      rw [hrt, hrem3, hup3]
    obtain ⟨hrSpecies, hrPhotos, hrNext, ts1, newUps1, newRems1, hrTrees, hrUps, hrRems,
        hbUps, hbRems, hbTs, hpw, hfa⟩ :=
      ih (restoreTree st td)
        (by rw [hst1_species]; exact fun td1 h1 => H1 td1 (List.mem_cons_of_mem _ h1))
        (by rw [hst1_species]; exact H2)
        (by
          rw [hst1_ups, hst1_next]
          intro u hu
          rcases List.mem_append.mp hu with h | h
          · have := H3 u h
            omega
          · have := hupid u h
            omega)
        (by
          rw [hst1_rems, hst1_next]
          intro x hx
          rcases List.mem_append.mp hx with h | h
          · have := H4 x h
            omega
          · have := hremid x h
            omega)
    have hr_eq : restoreTrees st (td :: tds1) = restoreTrees (restoreTree st td) tds1 := rfl
    rw [hr_eq]
    refine ⟨hrSpecies.trans hst1_species, hrPhotos.trans hst1_photos, ?_,
      ⟨st.nextId, td.tree_number, td.tree_name, s1.id, td.date_acquired, td.origin_date,
        td.current_girth, td.notes, td.is_archived⟩ :: ts1,
      upRows ++ newUps1, remRows ++ newRems1, ?_, ?_, ?_, ?_, ?_, ?_, ?_, ?_⟩
    · rw [hst1_next] at hrNext
      omega
    · rw [hrTrees, hst1_trees]
      simp
    · rw [hrUps, hst1_ups]
      simp
    · rw [hrRems, hst1_rems]
      simp
    · intro u hu
      rw [hst1_next] at hrNext
      rcases List.mem_append.mp hu with h | h
      · have := hupid u h
        omega
      · have := hbUps u h
        rw [hst1_next] at this
        omega
    · intro x hx
      rw [hst1_next] at hrNext
      rcases List.mem_append.mp hx with h | h
      · have := hremid x h
        omega
      · have := hbRems x h
        rw [hst1_next] at this
        omega
    · intro t ht
      rw [hst1_next] at hrNext
      rcases List.mem_cons.mp ht with rfl | h
      · constructor
        · exact le_rfl
        · show st.nextId < _
          omega
      · have := hbTs t h
        rw [hst1_next] at this
        omega
    · refine List.Pairwise.cons ?_ hpw
      intro b hb
      have := hbTs b hb
      rw [hst1_next] at this
      show st.nextId < b.id
      omega
    · refine List.Forall₂.cons ?_ ?_
      · refine ⟨rfl, rfl, rfl, rfl, rfl, rfl, rfl, ?_, ?_, ?_⟩
        · intro s hs hname
          have heq : s = s1 :=
            List.inj_on_of_nodup_map H2 hs hs1mem (by rw [hname, hs1name])
          show s1.id = s.id
          rw [heq]
        · show updatesProj (restoreTrees (restoreTree st td) tds1) st.nextId = _
          simp only [updatesProj, updatesOf]
          rw [hrUps, hst1_ups, List.filter_append, List.filter_append]
          have h1 : st.tree_updates.filter (fun u => u.tree_id == st.nextId) = [] := by
            rw [List.filter_eq_nil_iff]
            intro u hu
            have := H3 u hu
            simp only [beq_iff_eq]
            omega
          have h2 : upRows.filter (fun u => u.tree_id == st.nextId) = upRows := by
            rw [List.filter_eq_self]
            intro u hu
            simp [hupid u hu]
          have h3 : newUps1.filter (fun u => u.tree_id == st.nextId) = [] := by
            rw [List.filter_eq_nil_iff]
            intro u hu
            have := hbUps u hu
            rw [hst1_next] at this
            simp only [beq_iff_eq]
            omega
          rw [h1, h2, h3, List.nil_append, List.append_nil]
          have hproj := congrArg
            (List.map (fun y : Nat × Int × Option ℚ × String => y.2)) hup2
          rw [List.map_map, List.map_map] at hproj
          simpa [Function.comp] using hproj
        · show remindersProj (restoreTrees (restoreTree st td) tds1) st.nextId = _
          simp only [remindersProj, remindersOf]
          rw [hrRems, hst1_rems, List.filter_append, List.filter_append]
          have h1 : st.reminders.filter (fun x => x.tree_id == st.nextId) = [] := by
            rw [List.filter_eq_nil_iff]
            intro x hx
            have := H4 x hx
            simp only [beq_iff_eq]
            omega
          have h2 : remRows.filter (fun x => x.tree_id == st.nextId) = remRows := by
            rw [List.filter_eq_self]
            intro x hx
            simp [hremid x hx]
          have h3 : newRems1.filter (fun x => x.tree_id == st.nextId) = [] := by
            rw [List.filter_eq_nil_iff]
            intro x hx
            have := hbRems x hx
            rw [hst1_next] at this
            simp only [beq_iff_eq]
            omega
          rw [h1, h2, h3, List.nil_append, List.append_nil]
          have hproj := congrArg
            (List.map (fun y : Nat × Int × String × Int => y.2)) hrem2
          rw [List.map_map, List.map_map] at hproj
          simpa [Function.comp] using hproj
      · rw [hst1_species] at hfa
        exact hfa

theorem find?_key_get {α : Type} (key : α → String) :
    ∀ (l : List α), (l.map key).Nodup → ∀ (j : Nat) (h : j < l.length),
      l.find? (fun x => key x == key (l.get ⟨j, h⟩)) = some (l.get ⟨j, h⟩) := by
  intro l
  induction l with
  | nil =>
    intro _ j h
    simp at h
  | cons a as ih =>
    intro hnd j h
    simp only [List.map_cons, List.nodup_cons] at hnd
    cases j with
    | zero => exact List.find?_cons_of_pos _ (by simp)
    | succ j1 =>
      have h1 : j1 < as.length := by simpa using h
      have hget : (a :: as).get ⟨j1 + 1, h⟩ = as.get ⟨j1, h1⟩ := rfl
      rw [hget, List.find?_cons_of_neg, ih hnd.2 j1 h1]
      simp only [beq_iff_eq]
      intro hcon
      exact hnd.1 (by rw [hcon]; exact List.mem_map_of_mem _ (as.get_mem _ _))

theorem importTreeImages_spec :
    ∀ (files : List (String × String)) (st : Db) (image_dir folder : String) (tid : Nat),
      (∀ f ∈ files, (parseYMD f.1.data).isSome = true) →
      ∃ db2, importTreeImages st image_dir folder tid files = .ok db2 ∧
        db2.trees = st.trees ∧ db2.species = st.species ∧
        db2.tree_updates = st.tree_updates ∧ db2.reminders = st.reminders ∧
        ∃ rows, db2.photos = st.photos ++ rows ∧
          rows.map (fun p => (p.tree_id, p.photo_date, p.description, p.is_starred)) =
            files.map (fun f =>
              (tid, (parseYMD f.1.data).getD 0, some "Imported photo", (0 : Int))) := by
  intro files
  induction files with
  | nil =>
    intro st image_dir folder tid _
    exact ⟨st, rfl, rfl, rfl, rfl, rfl, [], by simp, rfl⟩
  | cons f rest ih =>
    intro st image_dir folder tid hparse
    obtain ⟨fname, content⟩ := f
    obtain ⟨d, hd⟩ := Option.isSome_iff_exists.mp (hparse _ (List.mem_cons_self _ _))
    obtain ⟨db2, hok, htr, hsp, hup, hrem, rows, hph, hproj⟩ := ih
      { st with
        photos := st.photos ++ [⟨st.nextId, tid,
          image_dir ++ "/" ++ folder ++ "/" ++ fname, d, some "Imported photo", 0⟩],
        nextId := st.nextId + 1 } image_dir folder tid
      (fun g hg => hparse g (List.mem_cons_of_mem _ hg))
    have hstep : importTreeImages st image_dir folder tid ((fname, content) :: rest) =
        importTreeImages
          { st with
            photos := st.photos ++ [⟨st.nextId, tid,
              image_dir ++ "/" ++ folder ++ "/" ++ fname, d, some "Imported photo", 0⟩],
            nextId := st.nextId + 1 } image_dir folder tid rest := by
      simp only [importTreeImages]
      rw [hd]
    refine ⟨db2, by rw [hstep]; exact hok, htr, hsp, hup, hrem,
      ⟨st.nextId, tid, image_dir ++ "/" ++ folder ++ "/" ++ fname, d,
        some "Imported photo", 0⟩ :: rows, ?_, ?_⟩
    · rw [hph]
      simp
    · simp only [List.map_cons, hproj, hd]
      rfl

theorem importImages_keyed :
    ∀ (pl : List (String × Nat × List (String × String))) (st : Db) (image_dir : String),
      (∀ pr ∈ pl, ∃ tr, st.trees.find? (fun x => x.tree_number == pr.1) = some tr ∧
        tr.id = pr.2.1) →
      (∀ pr ∈ pl, ∀ f ∈ pr.2.2, (parseYMD f.1.data).isSome = true) →
      (pl.map (fun pr => pr.2.1)).Nodup →
      ∃ db1, importImages st image_dir (pl.map (fun pr => (pr.1, pr.2.2))) = .ok db1 ∧
        db1.trees = st.trees ∧ db1.species = st.species ∧
        db1.tree_updates = st.tree_updates ∧ db1.reminders = st.reminders ∧
        ∃ newPhotos, db1.photos = st.photos ++ newPhotos ∧
          (∀ p ∈ newPhotos, ∃ pr ∈ pl, p.tree_id = pr.2.1) ∧
          (∀ pr ∈ pl,
            (newPhotos.filter (fun p => p.tree_id == pr.2.1)).map
              (fun p => (p.photo_date, p.description, p.is_starred)) =
            pr.2.2.map (fun f =>
              ((parseYMD f.1.data).getD 0, some "Imported photo", (0 : Int)))) := by
  intro pl
  induction pl with
  | nil =>
    intro st image_dir _ _ _
    refine ⟨st, rfl, rfl, rfl, rfl, rfl, [], by simp, ?_, ?_⟩
    · intro p hp
      simp at hp
    · intro pr hpr
      simp at hpr
  | cons pr rest ih =>
    intro st image_dir hfind hparse hnd
    obtain ⟨folder, tid, files⟩ := pr
    obtain ⟨tr, hfr, htr⟩ := hfind _ (List.mem_cons_self _ _)
    simp only [List.map_cons, List.nodup_cons] at hnd
    obtain ⟨db2, hok2, htr2, hsp2, hup2, hrem2, rows, hph2, hproj2⟩ :=
      importTreeImages_spec files st image_dir folder tr.id
        (fun g hg => hparse _ (List.mem_cons_self _ _) g hg)
    have hrowid : ∀ p ∈ rows, p.tree_id = tid := by
      intro p hp
      have hmm : (p.tree_id, p.photo_date, p.description, p.is_starred) ∈
          files.map (fun f =>
            (tr.id, (parseYMD f.1.data).getD 0, some "Imported photo", (0 : Int))) := by
        rw [← hproj2]
        exact List.mem_map_of_mem _ hp
      rcases List.mem_map.mp hmm with ⟨g, _, hg⟩
      have := congrArg Prod.fst hg
      simp only at this
      rw [← this, htr]
    obtain ⟨db1, hok1, htr1, hsp1, hup1, hrem1, newPhotos1, hph1, hmem1, hfil1⟩ :=
      ih db2 image_dir
        (fun pr1 h1 => by rw [htr2]; exact hfind pr1 (List.mem_cons_of_mem _ h1))
        (fun pr1 h1 => hparse pr1 (List.mem_cons_of_mem _ h1))
        hnd.2
    have hstep : importImages st image_dir
        (((folder, tid, files) :: rest).map (fun q => (q.1, q.2.2))) =
        importImages db2 image_dir (rest.map (fun q => (q.1, q.2.2))) := by
      simp only [List.map_cons, importImages]
      rw [hfr]
      dsimp only
      rw [hok2]
    refine ⟨db1, by rw [hstep]; exact hok1, htr1.trans htr2, hsp1.trans hsp2,
      hup1.trans hup2, hrem1.trans hrem2, rows ++ newPhotos1, ?_, ?_, ?_⟩
    · rw [hph1, hph2]
      simp
    · intro p hp
      rcases List.mem_append.mp hp with h | h
      · exact ⟨(folder, tid, files), List.mem_cons_self _ _, hrowid p h⟩
      · rcases hmem1 p h with ⟨pr1, h1, h2⟩
        exact ⟨pr1, List.mem_cons_of_mem _ h1, h2⟩
    · intro pr1 hpr1
      rcases List.mem_cons.mp hpr1 with rfl | h1
      · rw [List.filter_append]
        have hA : rows.filter (fun p => p.tree_id == tid) = rows := by
          rw [List.filter_eq_self]
          intro p hp
          simp [hrowid p hp]
        have hB : newPhotos1.filter (fun p => p.tree_id == tid) = [] := by
          rw [List.filter_eq_nil_iff]
          intro p hp
          rcases hmem1 p hp with ⟨pr2, h2, h3⟩
          simp only [beq_iff_eq]
          intro hcon
          apply hnd.1
          rw [← hcon, h3]
          exact List.mem_map_of_mem _ h2
        rw [hA, hB, List.append_nil]
        have hproj3 := congrArg
          (List.map (fun y : Nat × Int × Option String × Int => y.2)) hproj2
        rw [List.map_map, List.map_map] at hproj3
        simpa [Function.comp] using hproj3
      · rw [List.filter_append]
        have hA : rows.filter (fun p => p.tree_id == pr1.2.1) = [] := by
          rw [List.filter_eq_nil_iff]
          intro p hp
          rw [hrowid p hp]
          simp only [beq_iff_eq]
          intro hcon
          apply hnd.1
          rw [hcon]
          exact List.mem_map_of_mem _ h1
        rw [hA, List.nil_append]
        exact hfil1 pr1 h1

theorem forall2_get {α β : Type} {R : α → β → Prop} :
    ∀ {l1 : List α} {l2 : List β}, List.Forall₂ R l1 l2 →
      ∀ i (h1 : i < l1.length) (h2 : i < l2.length), R (l1.get ⟨i, h1⟩) (l2.get ⟨i, h2⟩) := by
  intro l1 l2 hf
  induction hf with
  | nil =>
    intro i h1 h2
    simp at h1
  | cons hr hrest ih =>
    intro i h1 h2
    cases i with
    | zero => exact hr
    | succ j => exact ih j (by simpa using h1) (by simpa using h2)

theorem treeJson_fields (db : Db) (now : Int) (t : TreeRow) (td : TreeJson)
    (h : treeJson db now t = some td) :
    ∃ sp, List.find? (fun s => s.id == t.species_id) db.species = some sp ∧
      sp ∈ db.species ∧ sp.id = t.species_id ∧
      td.tree_number = t.tree_number ∧ td.tree_name = t.tree_name ∧
      td.species = sp.name ∧ td.date_acquired = t.date_acquired ∧
      td.origin_date = t.origin_date ∧ td.current_girth = t.current_girth ∧
      td.notes = t.notes ∧ td.is_archived = t.is_archived ∧
      td.updates = (updatesOf db t.id).map (fun u =>
        ⟨u.update_date, u.girth, u.work_performed⟩) ∧
      td.photos = (photosOf db t.id).map (fun p =>
        ⟨basename p.file_path, p.photo_date, p.description, p.is_starred⟩) ∧
      td.reminders = (remindersOf db t.id).map (fun r =>
        ⟨r.reminder_date, r.message, r.is_completed⟩) := by
  unfold treeJson at h
  rcases Option.map_eq_some'.mp h with ⟨sp, hsp, hbuild⟩
  subst hbuild
  exact ⟨sp, hsp, List.mem_of_find?_eq_some hsp, by simpa using List.find?_some hsp,
    rfl, rfl, rfl, rfl, rfl, rfl, rfl, rfl, rfl, rfl, rfl⟩

/-- The per-tree image folders of the export, paired with the id of the tree
row the import restores for that tree. -/
def exportPairs (db : Db) (fs : List (String × String)) (ts : List TreeRow) :
    List (String × Nat × List (String × String)) :=
  (db.trees.zip ts).map (fun pr =>
    (pr.1.tree_number, pr.2.id, exportTreeImages fs (photosOf db pr.1.id)))

/-- C1 amended: for a well-formed collection (unique tree numbers and species
names, every photo file present, photo dates in the representable range and
distinct per tree per day), importing the archive produced by exporting it
succeeds and yields a collection in which every tree's scalar fields, every
update and every reminder equal the original's; each photo row is recreated
with its date truncated to midnight of its day, the fixed description
"Imported photo", and its star cleared. -/
theorem roundtrip_amended :
    ∀ (db : Db) (fs : List (String × String)) (now : Int) (image_dir : String)
      (ar : Archive),
      (db.trees.map TreeRow.tree_number).Nodup →
      (db.species.map SpeciesRow.name).Nodup →
      (∀ p ∈ db.photos, (List.lookup p.file_path fs).isSome = true) →
      (∀ p ∈ db.photos, 0 ≤ dayNum p.photo_date ∧ dayNum p.photo_date < 100000000) →
      (∀ t ∈ db.trees, ((photosOf db t.id).map (fun p => dayNum p.photo_date)).Nodup) →
      export_bonsai_data db fs now = some ar →
      ∃ db1, import_bonsai_data db ar image_dir = (db1, true) ∧
        db1.trees.length = db.trees.length ∧
        ∀ i (h : i < db.trees.length) (h1 : i < db1.trees.length),
          treeScalars (db1.trees.get ⟨i, h1⟩) = treeScalars (db.trees.get ⟨i, h⟩) ∧
          updatesProj db1 (db1.trees.get ⟨i, h1⟩).id =
            updatesProj db (db.trees.get ⟨i, h⟩).id ∧
          remindersProj db1 (db1.trees.get ⟨i, h1⟩).id =
            remindersProj db (db.trees.get ⟨i, h⟩).id ∧
          photosProj db1 (db1.trees.get ⟨i, h1⟩).id =
            (photosOf db (db.trees.get ⟨i, h⟩).id).map
              (fun p => (midnight p.photo_date, some "Imported photo", (0 : Int))) := by
  intro db fs now image_dir ar hndNum hndSp hfsEx hdayR hdayNd hexp
  unfold export_bonsai_data at hexp
  rcases Option.map_eq_some'.mp hexp with ⟨tds, hmapM, har⟩
  subst har
  obtain ⟨hlen_tds, hidx_tds, hmem_tds⟩ := mapM_option_spec (treeJson db now) db.trees tds hmapM
  obtain ⟨hrSp, hrPh, hrNext, ts, newUps, newRems, hrTrees, hrUps, hrRems, hbUps, hbRems,
      hbTs, hpw, hfa⟩ :=
    restoreTrees_spec tds (clearData db)
      (by
        intro td htd
        rcases hmem_tds td htd with ⟨t, _, htj⟩
        rcases treeJson_fields db now t td htj with
          ⟨sp, _, hspmem, _, _, _, hspec, _, _, _, _, _, _, _, _⟩
        exact ⟨sp, hspmem, hspec.symm⟩)
      hndSp
      (by
        intro u hu
        simp [clearData, clearTrees, clearReminders, clearTreeUpdates, clearPhotos] at hu)
      (by
        intro x hx
        simp [clearData, clearTrees, clearReminders, clearTreeUpdates, clearPhotos] at hx)
  have hrTrees1 : (restoreTrees (clearData db) tds).trees = ts := by
    rw [hrTrees]
    rfl
  have hrPhotos1 : (restoreTrees (clearData db) tds).photos = [] := by
    rw [hrPh]
    rfl
  have hfa1 : List.Forall₂
      (RestoredTreeRel (restoreTrees (clearData db) tds) db.species) tds ts := hfa
  have hlen_ts : ts.length = db.trees.length := hfa.length_eq.symm.trans hlen_tds
  have hts_num : ∀ i (h : i < db.trees.length) (h2 : i < ts.length),
      (ts.get ⟨i, h2⟩).tree_number = (db.trees.get ⟨i, h⟩).tree_number := by
    intro i h h2
    have h3 : i < tds.length := by omega
    have hrel := forall2_get hfa1 i h3 h2
    rcases treeJson_fields db now (db.trees.get ⟨i, h⟩) (tds.get ⟨i, h3⟩)
      (hidx_tds i h h3) with ⟨sp, _, _, _, hnum4, _, _, _, _, _, _, _, _, _, _⟩
    exact hrel.1.trans hnum4
  have hts_num_map : ts.map TreeRow.tree_number = db.trees.map TreeRow.tree_number := by
    apply List.ext_get (by simp [hlen_ts])
    intro n h1 h2
    rw [List.get_map, List.get_map]
    exact hts_num n (by simpa using h2) (by simpa using h1)
  have hts_num_nodup : (ts.map TreeRow.tree_number).Nodup := by
    rw [hts_num_map]
    exact hndNum
  have hts_id_pw : List.Pairwise (fun a b : TreeRow => a.id ≠ b.id) ts :=
    hpw.imp (fun hlt => by omega)
  have hpl_elem : ∀ q ∈ exportPairs db fs ts, ∃ (j : Nat) (hj : j < db.trees.length)
      (hj2 : j < ts.length),
      q = ((db.trees.get ⟨j, hj⟩).tree_number, (ts.get ⟨j, hj2⟩).id,
        exportTreeImages fs (photosOf db (db.trees.get ⟨j, hj⟩).id)) := by
    intro q hq
    unfold exportPairs at hq
    rcases List.mem_map.mp hq with ⟨pr, hpr, rfl⟩
    rcases List.mem_iff_get.mp hpr with ⟨n, hn⟩
    have hzl : (db.trees.zip ts).length = min db.trees.length ts.length :=
      List.length_zip _ _
    have hnlt := n.isLt
    have hn1 : (n : Nat) < db.trees.length := by omega
    have hn2 : (n : Nat) < ts.length := by omega
    refine ⟨n, hn1, hn2, ?_⟩
    rw [← hn, List.get_zip]
  have hsubPhotos : ∀ (tid : Nat), ∀ p ∈ photosOf db tid, p ∈ db.photos := by
    intro tid p hp
    exact List.mem_of_mem_filter hp
  have himg : db.trees.map (fun t => (t.tree_number, exportTreeImages fs (photosOf db t.id))) =
      (exportPairs db fs ts).map (fun q => (q.1, q.2.2)) := by
    unfold exportPairs
    rw [List.map_map]
    have hcomp : ((fun q : String × Nat × List (String × String) => (q.1, q.2.2)) ∘
        (fun pr : TreeRow × TreeRow =>
          (pr.1.tree_number, pr.2.id, exportTreeImages fs (photosOf db pr.1.id)))) =
        ((fun t : TreeRow => (t.tree_number, exportTreeImages fs (photosOf db t.id))) ∘
          Prod.fst) := rfl
    rw [hcomp, ← List.map_map, List.map_fst_zip _ _ (le_of_eq hlen_ts.symm)]
  obtain ⟨db1, hok1, htrees1, hsp1, hup1, hrem1, newPhotos, hph1, hmemNP, hfilNP⟩ :=
    importImages_keyed (exportPairs db fs ts) (restoreTrees (clearData db) tds) image_dir
      (by
        intro q hq
        rcases hpl_elem q hq with ⟨j, hj, hj2, rfl⟩
        refine ⟨ts.get ⟨j, hj2⟩, ?_, rfl⟩
        rw [hrTrees1]
        rw [show ((db.trees.get ⟨j, hj⟩).tree_number : String) =
          (ts.get ⟨j, hj2⟩).tree_number from (hts_num j hj hj2).symm]
        exact find?_key_get TreeRow.tree_number ts hts_num_nodup j hj2)
      (by
        intro q hq
        rcases hpl_elem q hq with ⟨j, hj, hj2, rfl⟩
        intro f hf
        have htmem : db.trees.get ⟨j, hj⟩ ∈ db.trees := db.trees.get_mem _ _
        rw [exportTreeImages_eq_map fs _
          (fun p hp => hfsEx p (hsubPhotos _ p hp))
          (names_nodup_of_days_nodup _ (fun p hp => hdayR p (hsubPhotos _ p hp))
            (hdayNd _ htmem))] at hf
        rcases List.mem_map.mp hf with ⟨p, hp, rfl⟩
        have hr := hdayR p (hsubPhotos _ p hp)
        show (parseYMD (photoArchiveName p).data).isSome = true
        unfold photoArchiveName
        rw [parseYMD_dayStr p.photo_date _ hr.1 hr.2]
        rfl)
      (by
        unfold exportPairs
        rw [List.map_map]
        have hcomp : ((fun pr : String × Nat × List (String × String) => pr.2.1) ∘
            (fun pr : TreeRow × TreeRow =>
              (pr.1.tree_number, pr.2.id, exportTreeImages fs (photosOf db pr.1.id)))) =
            (TreeRow.id ∘ Prod.snd) := rfl
        rw [hcomp, ← List.map_map, List.map_snd_zip _ _ (le_of_eq hlen_ts)]
        exact List.pairwise_map.mpr hts_id_pw)
  have hbody : import_body db ⟨some tds, db.trees.map (fun t =>
      (t.tree_number, exportTreeImages fs (photosOf db t.id)))⟩ image_dir = .ok db1 := by
    unfold import_body
    dsimp only
    rw [himg]
    exact hok1
  have himport : import_bonsai_data db ⟨some tds, db.trees.map (fun t =>
      (t.tree_number, exportTreeImages fs (photosOf db t.id)))⟩ image_dir = (db1, true) := by
    unfold import_bonsai_data
    rw [hbody]
  have hdb1trees : db1.trees = ts := htrees1.trans hrTrees1
  have hphotos_db1 : db1.photos = newPhotos := by
    rw [hph1, hrPhotos1]
    rfl
  refine ⟨db1, himport, by rw [hdb1trees]; exact hlen_ts, ?_⟩
  intro i h h1
  have h2 : i < ts.length := by
    rw [hdb1trees] at h1
    exact h1
  have hget1 : db1.trees.get ⟨i, h1⟩ = ts.get ⟨i, h2⟩ := List.get_of_eq hdb1trees _
  have h3 : i < tds.length := by omega
  have htj := hidx_tds i h h3
  rcases treeJson_fields db now (db.trees.get ⟨i, h⟩) (tds.get ⟨i, h3⟩) htj with
    ⟨sp, hfsp, hspmem, hspid, hNum, hName, hSpec, hAcq, hOrig, hGirth, hNotes, hArch,
      hUpds, hPhs, hRems⟩
  obtain ⟨r1, r2, r3, r4, r5, r6, r7, r8, r9, r10⟩ := forall2_get hfa1 i h3 h2
  rw [hget1]
  refine ⟨?_, ?_, ?_, ?_⟩
  · simp only [treeScalars, Prod.mk.injEq]
    refine ⟨r1.trans hNum, r2.trans hName, ?_, r3.trans hAcq, r4.trans hOrig,
      r5.trans hGirth, r6.trans hNotes, r7.trans hArch⟩
    rw [r8 sp hspmem hSpec.symm, hspid]
  · have hproj_tbl : updatesProj db1 (ts.get ⟨i, h2⟩).id =
        updatesProj (restoreTrees (clearData db) tds) (ts.get ⟨i, h2⟩).id := by
      simp only [updatesProj, updatesOf, hup1]
    rw [hproj_tbl, r9, hUpds, List.map_map]
    rfl
  · have hproj_tbl : remindersProj db1 (ts.get ⟨i, h2⟩).id =
        remindersProj (restoreTrees (clearData db) tds) (ts.get ⟨i, h2⟩).id := by
      simp only [remindersProj, remindersOf, hrem1]
    rw [hproj_tbl, r10, hRems, List.map_map]
    rfl
  · have hplmem : ((db.trees.get ⟨i, h⟩).tree_number, (ts.get ⟨i, h2⟩).id,
        exportTreeImages fs (photosOf db (db.trees.get ⟨i, h⟩).id)) ∈
        exportPairs db fs ts := by
      unfold exportPairs
      apply List.mem_map.mpr
      refine ⟨(db.trees.get ⟨i, h⟩, ts.get ⟨i, h2⟩), ?_, rfl⟩
      apply List.mem_iff_get.mpr
      refine ⟨⟨i, by rw [List.length_zip]; omega⟩, ?_⟩
      rw [List.get_zip]
    have hfil := hfilNP _ hplmem
    dsimp only at hfil
    simp only [photosProj, photosOf]
    rw [hphotos_db1, hfil]
    have htmem : db.trees.get ⟨i, h⟩ ∈ db.trees := db.trees.get_mem _ _
    rw [exportTreeImages_eq_map fs _
      (fun p hp => hfsEx p (hsubPhotos _ p hp))
      (names_nodup_of_days_nodup _ (fun p hp => hdayR p (hsubPhotos _ p hp))
        (hdayNd _ htmem))]
    rw [List.map_map]
    apply List.map_congr_left
    intro p hp
    have hr := hdayR p (hsubPhotos _ p hp)
    show ((parseYMD (photoArchiveName p).data).getD 0, some "Imported photo", (0 : Int)) = _
    unfold photoArchiveName
    rw [parseYMD_dayStr p.photo_date _ hr.1 hr.2]
    rfl

/-- Witness for the amended C1 at the concrete collection `exDbC1`: the round
trip succeeds and satisfies the per-tree correspondences. -/
theorem roundtrip_amended_witness :
    ∃ db1, import_bonsai_data exDbC1 exArchiveC1 "imgs" = (db1, true) ∧
      db1.trees.length = exDbC1.trees.length ∧
      ∀ i (h : i < exDbC1.trees.length) (h1 : i < db1.trees.length),
        treeScalars (db1.trees.get ⟨i, h1⟩) = treeScalars (exDbC1.trees.get ⟨i, h⟩) ∧
        updatesProj db1 (db1.trees.get ⟨i, h1⟩).id =
          updatesProj exDbC1 (exDbC1.trees.get ⟨i, h⟩).id ∧
        remindersProj db1 (db1.trees.get ⟨i, h1⟩).id =
          remindersProj exDbC1 (exDbC1.trees.get ⟨i, h⟩).id ∧
        photosProj db1 (db1.trees.get ⟨i, h1⟩).id =
          (photosOf exDbC1 (exDbC1.trees.get ⟨i, h⟩).id).map
            (fun p => (midnight p.photo_date, some "Imported photo", (0 : Int))) := by
  have hexp : export_bonsai_data exDbC1 exFsC1 0 = some exArchiveC1 := by
    have hsome : (export_bonsai_data exDbC1 exFsC1 0).isSome = true := by decide
    unfold exArchiveC1
    cases h : export_bonsai_data exDbC1 exFsC1 0 with
    | none => rw [h] at hsome; simp at hsome
    | some a => rfl
  exact roundtrip_amended exDbC1 exFsC1 0 "imgs" exArchiveC1 (by decide) (by decide)
    (by decide) (by decide) (by decide) hexp
